import Mathlib

/-!
# Autograder server: request validation and user synchronisation

A shallow embedding of

* `api/request.go`: `getMaxRole`, `APIRequest.Validate`,
  `APIRequestCourseUserContext.Validate`, `APIRequestAssignmentContext.Validate`,
  `ValidateAPIRequest`;
* `db/types/course_user.go`: `Course.SyncNewUsers`;
* `report/assignment.go`: `fetchScores`, `GetAssignmentScoringReport`.

Go pointers that may be nil are `Option`s; a run-time panic (nil dereference,
`NumField` on something that is not a struct) is the result `none`.
-/

namespace Autograder

/-! ## Data model -/

/-- Modelled from the spec: `usr.UserRole` is declared in the `usr` package, which is not
among the source files; the spec gives the ordered enumeration
`Unknown = 0, Other, Student, Grader, Admin, Owner`. -/
inductive UserRole where
  | Unknown
  | Other
  | Student
  | Grader
  | Admin
  | Owner
  deriving DecidableEq, Repr

/-- The ordinal of a role (the underlying Go integer). -/
def UserRole.toNat : UserRole → Nat
  | .Unknown => 0
  | .Other => 1
  | .Student => 2
  | .Grader => 3
  | .Admin => 4
  | .Owner => 5

instance : LT UserRole := ⟨fun a b => a.toNat < b.toNat⟩

instance : LE UserRole := ⟨fun a b => a.toNat ≤ b.toNat⟩

instance (a b : UserRole) : Decidable (a < b) :=
  inferInstanceAs (Decidable (a.toNat < b.toNat))

instance (a b : UserRole) : Decidable (a ≤ b) :=
  inferInstanceAs (Decidable (a.toNat ≤ b.toNat))

/-- Modelled from the spec: `usr.User` is declared in the `usr` package, which is not among
the source files. The source reads `Email`, `Pass` and `Role`; the spec adds a display
name and an optional external-system identifier. -/
structure User where
  Email : String
  Name : String
  Role : UserRole
  Pass : String
  LMSID : String
  deriving DecidableEq, Repr

/-- The part of `model.Assignment` the request code touches: an assignment is a value found
under its id in the course. -/
structure Assignment where
  ID : String
  Name : String
  deriving DecidableEq, Repr

/-- The part of `model.Course` the request code touches: the `Assignments` map
(`this.course.Assignments[this.AssignmentID]`), as an association list. -/
structure Course where
  ID : String
  Assignments : List (String × Assignment)
  deriving DecidableEq, Repr

/-- Go `type APIRequest struct`. -/
structure APIRequest where
  RequestID : String
  Endpoint : String
  Timestamp : String
  deriving DecidableEq, Repr

/-- Go `type APIRequestCourseUserContext struct`; `course` and `user` are pointers. -/
structure APIRequestCourseUserContext extends APIRequest where
  CourseID : String
  UserEmail : String
  UserPass : String
  course : Option Course
  user : Option User
  deriving DecidableEq, Repr

/-- Go `type APIRequestAssignmentContext struct`; `assignment` is a pointer. -/
structure APIRequestAssignmentContext extends APIRequestCourseUserContext where
  AssignmentID : String
  assignment : Option Assignment
  deriving DecidableEq, Repr

/-- Modelled from the spec: the `APIError` type and its constructors (`NewBadRequestError`,
`NewInternalError`, `NewBadPermissionsError`, `NewBareInternalError`, and whatever
`Auth` returns) live in files of the `api` package that are not among the source files.
An error is recorded as its kind (the spec's taxonomy `BadRequest`, `Unauthenticated`,
`PermissionDenied`, `Internal`) together with the arguments the constructor was called
with; `details` holds the pairs appended with `.Add`. -/
inductive APIError where
  | BadRequest (request : APIRequest) (message : String) (details : List (String × String))
  | Unauthenticated (request : APIRequestCourseUserContext) (message : String)
  | BadPermissions (request : APIRequestCourseUserContext) (minRole : UserRole)
      (message : String)
  | Internal (request : APIRequestCourseUserContext) (message : String)
  | BareInternal (code : String) (endpoint : String) (message : String)
  deriving DecidableEq, Repr

/-- Go `NewBadRequestError(request, message)`. -/
def NewBadRequestError (request : APIRequest) (message : String) : APIError :=
  .BadRequest request message []

/-- Go `NewInternalError(request, message)`. -/
def NewInternalError (request : APIRequestCourseUserContext) (message : String) : APIError :=
  .Internal request message

/-- Go `NewBadPermissionsError(request, minRole, message)`. -/
def NewBadPermissionsError (request : APIRequestCourseUserContext) (minRole : UserRole)
    (message : String) : APIError :=
  .BadPermissions request minRole message

/-- Go `NewBareInternalError(code, endpoint, message)`. -/
def NewBareInternalError (code endpoint message : String) : APIError :=
  .BareInternal code endpoint message

/-- Go `apiErr.Add(key, value)`: attach one more detail to a bad-request error. -/
def APIError.Add (e : APIError) (key value : String) : APIError :=
  match e with
  | .BadRequest r m ds => .BadRequest r m (ds ++ [(key, value)])
  | other => other

/-- Whether an error is of the `BadRequest` kind. -/
def APIError.isBadRequest : APIError → Bool
  | .BadRequest _ _ _ => true
  | _ => false

/-- Whether an error is of the `Internal` kind. -/
def APIError.isInternal : APIError → Bool
  | .Internal _ _ => true
  | .BareInternal _ _ _ => true
  | _ => false

/-- Whether an error is of the bad-permissions kind. -/
def APIError.isBadPermissions : APIError → Bool
  | .BadPermissions _ _ _ => true
  | _ => false

/-! ## Request values as seen through `reflect` -/

/-- One field of a request struct, by its Go type. The five `MinRole*` types are `bool`s;
`Other` stands for a field of any other type. -/
inductive Field where
  | MinRoleOwner (value : Bool)
  | MinRoleAdmin (value : Bool)
  | MinRoleGrader (value : Bool)
  | MinRoleStudent (value : Bool)
  | MinRoleOther (value : Bool)
  | CourseUserContext (context : APIRequestCourseUserContext)
  | AssignmentContext (context : APIRequestAssignmentContext)
  | Other (typeName : String)
  deriving DecidableEq, Repr

/-- A Go `any` as `reflect.ValueOf` sees it: a struct, a pointer (to anything), a nil
pointer, or a value of some other kind. -/
inductive Value where
  | Struct (fields : List Field)
  | Pointer (elem : Value)
  | NilPointer
  | Scalar
  deriving DecidableEq, Repr

/-- The collaborators `APIRequestCourseUserContext.Validate` calls that are outside the source
files: `util.UUID()` and `util.NowTimestamp()` (the `n`-th value each hands out),
`grader.GetCourse`, and the method `Auth`, which returns a user pointer and an error
pointer. -/
structure Env where
  UUID : Nat → String
  NowTimestamp : Nat → String
  GetCourse : String → Option Course
  Auth : APIRequestCourseUserContext → Option User × Option APIError

/-! ## `getMaxRole` -/

/-- One iteration of the loop of `getMaxRole` on the pair `(role, foundRole)`. -/
def getMaxRoleStep (acc : UserRole × Bool) (fieldValue : Field) : UserRole × Bool :=
  match fieldValue with
  | .MinRoleOwner _ => (if acc.1 < UserRole.Owner then UserRole.Owner else acc.1, true)
  | .MinRoleAdmin _ => (if acc.1 < UserRole.Admin then UserRole.Admin else acc.1, true)
  | .MinRoleGrader _ => (if acc.1 < UserRole.Grader then UserRole.Grader else acc.1, true)
  | .MinRoleStudent _ => (if acc.1 < UserRole.Student then UserRole.Student else acc.1, true)
  | .MinRoleOther _ => (if acc.1 < UserRole.Other then UserRole.Other else acc.1, true)
  | _ => acc

/-- Go `getMaxRole(request any) (usr.UserRole, bool)`. A pointer is dereferenced once;
`NumField` panics (`none`) when what is left is not a struct. -/
def getMaxRole (request : Value) : Option (UserRole × Bool) :=
  let reflectValue : Value :=
    match request with
    | .Pointer elem => elem
    | other => other
  match reflectValue with
  | .Struct fields => some (fields.foldl getMaxRoleStep (UserRole.Unknown, false))
  | _ => none

/-! ## The `Validate` methods -/

/-- Go `(*APIRequest).Validate`: stamp request id, endpoint and timestamp. `n` is the number
of ids handed out so far. -/
def APIRequest.Validate (env : Env) (n : Nat) (_this : APIRequest) (_request : Value)
    (endpoint : String) : APIRequest × Option APIError :=
  ({ RequestID := env.UUID n, Endpoint := endpoint, Timestamp := env.NowTimestamp n }, none)

/-- Go `(*APIRequestCourseUserContext).Validate`. The result is the receiver after the call
and the returned error; `none` is a panic. -/
def APIRequestCourseUserContext.Validate (env : Env) (n : Nat)
    (this : APIRequestCourseUserContext) (request : Value) (endpoint : String) :
    Option (APIRequestCourseUserContext × Option APIError) :=
  let (base, apiErr) := APIRequest.Validate env n this.toAPIRequest request endpoint
  let this := { this with toAPIRequest := base }
  match apiErr with
  | some e => some (this, some e)
  | none =>
    if this.CourseID = "" then
      some (this, some (NewBadRequestError this.toAPIRequest "No course ID specified."))
    else if this.UserEmail = "" then
      some (this, some (NewBadRequestError this.toAPIRequest "No user email specified."))
    else if this.UserPass = "" then
      some (this, some (NewBadRequestError this.toAPIRequest "No user password specified."))
    else
      let this := { this with course := env.GetCourse this.CourseID }
      match this.course with
      | none =>
        some (this, some ((NewBadRequestError this.toAPIRequest "Could not find course.").Add
          "course-id" this.CourseID))
      | some _ =>
        let (user, apiErr) := env.Auth this
        let this := { this with user := user }
        match apiErr with
        | some e => some (this, some e)
        | none =>
          match getMaxRole request with
          | none => none
          | some (minRole, foundRole) =>
            if !foundRole then
              some (this, some (NewInternalError this
                "No role found for request. All request structs require a minimum role."))
            else
              match this.user with
              | none => none
              | some u =>
                if u.Role < minRole then
                  some (this, some (NewBadPermissionsError this minRole ""))
                else
                  some (this, none)

/-- Go `(*APIRequestAssignmentContext).Validate`. -/
def APIRequestAssignmentContext.Validate (env : Env) (n : Nat)
    (this : APIRequestAssignmentContext) (request : Value) (endpoint : String) :
    Option (APIRequestAssignmentContext × Option APIError) :=
  match this.toAPIRequestCourseUserContext.Validate env n request endpoint with
  | none => none
  | some (inner, apiErr) =>
    let this := { this with toAPIRequestCourseUserContext := inner }
    match apiErr with
    | some e => some (this, some e)
    | none =>
      if this.AssignmentID = "" then
        some (this, some (NewBadRequestError this.toAPIRequest "No assignment ID specified."))
      else
        match this.course with
        | none => none
        | some course =>
          let this := { this with assignment := course.Assignments.lookup this.AssignmentID }
          match this.assignment with
          | none =>
            some (this, some (((NewBadRequestError this.toAPIRequest
              "Could not find assignment.").Add "course-id" this.CourseID).Add
              "assignment-id" this.AssignmentID))
          | some _ => some (this, none)

/-! ## `ValidateAPIRequest` -/

/-- The loop of `ValidateAPIRequest` over the fields of the struct the request pointer refers
to. `done` are the fields already visited (as they now stand in the struct), `todo` the
fields still to visit; the struct in memory is `done ++ todo`. Each recognised field is
copied out, the copy is validated against the request pointer, and only when that returns
no error is the copy written back with `fieldValue.Set`. The result is the struct after
the loop, `foundRequestStruct`, and the error returned from inside the loop, if any. -/
def validateFields (env : Env) (endpoint : String) :
    Nat → List Field → List Field → Bool → Option (List Field × Bool × Option APIError)
  | _, done, [], found => some (done, found, none)
  | n, done, fieldValue :: rest, found =>
    match fieldValue with
    | .CourseUserContext courseUserRequest =>
      match courseUserRequest.Validate env n
          (.Pointer (.Struct (done ++ fieldValue :: rest))) endpoint with
      | none => none
      | some (_, some apiErr) => some (done ++ fieldValue :: rest, true, some apiErr)
      | some (validated, none) =>
        validateFields env endpoint (n + 1) (done ++ [.CourseUserContext validated]) rest true
    | .AssignmentContext assignmentRequest =>
      match assignmentRequest.Validate env n
          (.Pointer (.Struct (done ++ fieldValue :: rest))) endpoint with
      | none => none
      | some (_, some apiErr) => some (done ++ fieldValue :: rest, true, some apiErr)
      | some (validated, none) =>
        validateFields env endpoint (n + 1) (done ++ [.AssignmentContext validated]) rest true
    | other => validateFields env endpoint n (done ++ [other]) rest found

/-- Go `ValidateAPIRequest(request any, endpoint string) *APIError`. The result is the
request value after the call (what the pointer now refers to) and the returned error;
`none` is a panic. -/
def ValidateAPIRequest (env : Env) (n : Nat) (request : Value) (endpoint : String) :
    Option (Value × Option APIError) :=
  match request with
  | .Pointer (.Struct fields) =>
    match validateFields env endpoint n [] fields false with
    | none => none
    | some (fields', _, some apiErr) => some (.Pointer (.Struct fields'), some apiErr)
    | some (fields', false, none) =>
      some (.Pointer (.Struct fields'), some (NewBareInternalError "-511" endpoint
        "Request is not any kind of known API request."))
    | some (fields', true, none) => some (.Pointer (.Struct fields'), none)
  | .Pointer _ => none
  | .NilPointer => none
  | other =>
    some (other, some (NewBareInternalError "-512" endpoint
      "ValidateAPIRequest() must be called with a pointer."))

/-! ## `Course.SyncNewUsers`

The function is in `db/types/course_user.go`, inside the block comment that holds the
course's user methods. It works on pointers to users: the roster loaded by `GetUsers`,
the users passed in, and the three lists of the result share objects, so memory is
explicit here. -/

/-- A pointer to a user. `GetUsers` loads the roster from the users file, one fresh object
per key (`Loaded key`); the objects passed in by the caller are numbered
(`Incoming id`), and two entries of `newUsers` may hold the same object. -/
inductive Ptr where
  | Loaded (key : String)
  | Incoming (id : Nat)
  deriving DecidableEq, Repr

/-- The Go zero value of `usr.User`. -/
def User.zero : User :=
  { Email := "", Name := "", Role := UserRole.Unknown, Pass := "", LMSID := "" }

/-- Memory: the user each pointer refers to. -/
abbrev Heap := Ptr → User

/-- Write through a pointer. -/
def Heap.store (heap : Heap) (p : Ptr) (u : User) : Heap :=
  fun q => if q = p then u else heap q

/-- Go `m[key]` on a `map[string]T` whose values are not nil: `none` is the nil a missing
key gives. -/
def mapGet {α : Type} (m : List (String × α)) (key : String) : Option α :=
  m.lookup key

/-- Go `m[key] = value`: replace the entry of `key`, or add one. -/
def mapSet {α : Type} (m : List (String × α)) (key : String) (value : α) :
    List (String × α) :=
  if (m.lookup key).isSome then
    m.map (fun kv => if kv.1 = key then (key, value) else kv)
  else
    m ++ [(key, value)]

/-- A Go `error`: a message, possibly wrapped by `fmt.Errorf` with a context. -/
inductive Error where
  | Message (text : String)
  | Wrapped (context : String) (cause : Error)
  deriving DecidableEq, Repr

/-- Modelled from the spec: `usr.UserSyncResult` is declared in the `usr` package, which is
not among the source files. The spec gives three lists of users (Skipped, Added,
Modified) and a map from email to plaintext password; the source reads the fields `Add`,
`Mod` and `ClearTextPasswords`. -/
structure UserSyncResult where
  Add : List Ptr
  Mod : List Ptr
  Skip : List Ptr
  ClearTextPasswords : List (String × String)
  deriving DecidableEq, Repr

/-- Modelled from the spec: `usr.UserResolveResult` is declared in the `usr` package, which
is not among the source files; the source sets one of `Skip`, `Add`, `Mod` to a user
pointer and leaves the others nil. -/
structure UserResolveResult where
  Add : Option Ptr
  Mod : Option Ptr
  Skip : Option Ptr
  deriving DecidableEq, Repr

/-- Modelled from the spec: `usr.NewUserSyncResult` is not among the source files; a new
result has three empty lists and an empty map. -/
def NewUserSyncResult : UserSyncResult :=
  { Add := [], Mod := [], Skip := [], ClearTextPasswords := [] }

/-- Modelled from the spec: `usr.UserSyncResult.AddResolveResult` is not among the source
files; each non-nil user of the resolve result is appended to the list of its kind. -/
def UserSyncResult.AddResolveResult (this : UserSyncResult) (r : UserResolveResult) :
    UserSyncResult :=
  { this with
    Add := this.Add ++ r.Add.toList
    Mod := this.Mod ++ r.Mod.toList
    Skip := this.Skip ++ r.Skip.toList }

/-- The collaborators of `SyncNewUsers` that are outside the source files. The methods of
`usr.User` are modelled from the spec, which lists role, name, password hash and external
id as the mutable attributes of a user and the email as its identity: no method changes
the email.
* `GetUsers`: the roster as loaded from the users file, or an error;
* `SaveUsers`: the persistence step, given the roster to write (each key with the user
  its pointer refers to); it returns an error or nil;
* `SetRandomPassword`: `usr.User.SetRandomPassword`, given the number of passwords
  generated so far in this call and the user; it returns the hash it stores as the
  password of the user and the plaintext, or an error;
* `SetPassword`: `usr.User.SetPassword`, given the user and the hash; it returns what it
  stores as the password of the user, or an error;
* `Merge`: `usr.User.Merge`, given the receiver and the other user; it returns the
  receiver as changed (its email aside) and whether anything changed. -/
structure SyncEnv where
  GetUsers : Except Error (List (String × User))
  SaveUsers : List (String × User) → Option Error
  SetRandomPassword : Nat → User → Except Error (String × String)
  SetPassword : User → String → Except Error String
  Merge : User → User → User × Bool

/-- One call of `usr.SendUserAddEmail(user, pass, generatedPass, userExists, dryRun,
sleep)`. -/
structure EmailCall where
  user : Ptr
  pass : String
  generatedPass : Bool
  userExists : Bool
  dryRun : Bool
  sleep : Bool
  deriving DecidableEq, Repr

/-- The variables of the loop of `SyncNewUsers`: memory, the working roster `localUsers`,
`syncResult`, and the number of passwords generated so far. -/
structure SyncState where
  heap : Heap
  localUsers : List (String × Ptr)
  syncResult : UserSyncResult
  generated : Nat

/-- The password part of one iteration (`if (newUser.Pass == "") ... else ...`) for the
user behind `p`: the state after it and the error the function returns with, if any. -/
def resolvePassword (env : SyncEnv) (s : SyncState) (p : Ptr) : SyncState × Option Error :=
  let newUser := s.heap p
  if newUser.Pass = "" then
    match env.SetRandomPassword s.generated newUser with
    | .error err => (s, some err)
    | .ok (hash, clearTextPass) =>
      ({ s with
        heap := s.heap.store p { newUser with Pass := hash }
        generated := s.generated + 1
        syncResult := { s.syncResult with
          ClearTextPasswords :=
            mapSet s.syncResult.ClearTextPasswords newUser.Email clearTextPass } }, none)
  else
    let hashPass := newUser.Pass
    match env.SetPassword newUser hashPass with
    | .error err => (s, some err)
    | .ok pass => ({ s with heap := s.heap.store p { newUser with Pass := pass } }, none)

/-- The new-user branch of one iteration (`if (localUser == nil) ...`) for the user behind
`p`. -/
def addNewUser (s : SyncState) (p : Ptr) : SyncState :=
  let newUser := s.heap p
  let heap :=
    if newUser.Role = UserRole.Unknown then
      s.heap.store p { newUser with Role := UserRole.Other }
    else s.heap
  { s with
    heap := heap
    localUsers := mapSet s.localUsers (heap p).Email p
    syncResult := s.syncResult.AddResolveResult { Add := some p, Mod := none, Skip := none } }

/-- The merge branch of one iteration: merge the user behind `p` into the local user behind
`q`. -/
def mergeUser (env : SyncEnv) (s : SyncState) (q p : Ptr) : SyncState :=
  let localUser := s.heap q
  let (merged, changed) := env.Merge localUser (s.heap p)
  let s := { s with heap := s.heap.store q { merged with Email := localUser.Email } }
  if changed then
    { s with
      syncResult := s.syncResult.AddResolveResult { Add := none, Mod := some q, Skip := none } }
  else s

/-- One iteration of the loop `for _, newUser := range newUsers` for the user behind `p`:
the state after it and the error the function returns with, if any. -/
def syncNewUser (env : SyncEnv) (merge : Bool) (s : SyncState) (p : Ptr) :
    SyncState × Option Error :=
  let newUser := s.heap p
  let localUser := mapGet s.localUsers newUser.Email
  if localUser.isSome && !merge then
    ({ s with
      syncResult :=
        s.syncResult.AddResolveResult { Add := none, Mod := none, Skip := localUser } }, none)
  else
    match resolvePassword env s p with
    | (s, some err) => (s, some err)
    | (s, none) =>
      match localUser with
      | none => (addNewUser s p, none)
      | some q => (mergeUser env s q p, none)

/-- The loop `for _, newUser := range newUsers`, over the pointers in iteration order: the
state when the loop is left, and the error if it is left by `return nil, err`. -/
def syncLoop (env : SyncEnv) (merge : Bool) : SyncState → List Ptr → SyncState × Option Error
  | s, [] => (s, none)
  | s, p :: rest =>
    match syncNewUser env merge s p with
    | (s, some err) => (s, some err)
    | (s, none) => syncLoop env merge s rest

/-- The first notification loop, `for _, newUser := range syncResult.Add`. -/
def notifyAdded (heap : Heap) (syncResult : UserSyncResult) (dryRun sleep : Bool) :
    List EmailCall :=
  syncResult.Add.map fun newUser =>
    let clearTextPass := (mapGet syncResult.ClearTextPasswords (heap newUser).Email).getD ""
    { user := newUser, pass := clearTextPass, generatedPass := decide (clearTextPass ≠ ""),
      userExists := false, dryRun := dryRun, sleep := sleep }

/-- The second notification loop, `for _, newUser := range syncResult.Mod`. -/
def notifyModified (heap : Heap) (syncResult : UserSyncResult) (dryRun sleep : Bool) :
    List EmailCall :=
  syncResult.Mod.filterMap fun newUser =>
    let clearTextPass := (mapGet syncResult.ClearTextPasswords (heap newUser).Email).getD ""
    if clearTextPass = "" then none
    else
      some { user := newUser, pass := clearTextPass, generatedPass := true, userExists := true,
             dryRun := dryRun, sleep := sleep }

/-- What a call of `SyncNewUsers` returns and does: the returned pair, memory after the
call, the roster `SaveUsers` was called with (`none` when it was not called), and the
calls of `SendUserAddEmail` in order. -/
structure SyncOutcome where
  result : Option UserSyncResult
  err : Option Error
  heap : Heap
  saved : Option (List (String × User))
  emails : List EmailCall

/-- Memory at the start of `SyncNewUsers`: the loaded roster and the objects passed in. -/
def initialHeap (stored : List (String × User)) (objects : Nat → User) : Heap
  | .Loaded key => (stored.lookup key).getD User.zero
  | .Incoming id => objects id

/-- The state in which the loop of `SyncNewUsers` starts: `localUsers` is the loaded roster,
`syncResult` is new. -/
def startState (stored : List (String × User)) (objects : Nat → User) : SyncState :=
  { heap := initialHeap stored objects
    localUsers := stored.map fun kv => (kv.1, Ptr.Loaded kv.1)
    syncResult := NewUserSyncResult
    generated := 0 }

/-- The pointers held by the map `newUsers`, in iteration order. -/
def incomingPtrs (newUsers : List (String × Nat)) : List Ptr :=
  newUsers.map fun kv => Ptr.Incoming kv.2

/-- The roster handed to `SaveUsers`: each key of `localUsers` with the user its pointer
refers to. -/
def rosterOf (s : SyncState) : List (String × User) :=
  s.localUsers.map fun kv => (kv.1, s.heap kv.2)

/-- Go `(*Course).SyncNewUsers(newUsers, merge, dryRun, sendEmails)`. `newUsers` is the map
passed in, its entries in the order the `range` visits them; `objects` is what the
pointers in it refer to. -/
def SyncNewUsers (env : SyncEnv) (objects : Nat → User) (newUsers : List (String × Nat))
    (merge dryRun sendEmails : Bool) : SyncOutcome :=
  match env.GetUsers with
  | .error err =>
    { result := none, err := some (.Wrapped "Failed to fetch local users" err),
      heap := initialHeap [] objects, saved := none, emails := [] }
  | .ok stored =>
    match syncLoop env merge (startState stored objects) (incomingPtrs newUsers) with
    | (s, some err) =>
      { result := none, err := some err, heap := s.heap, saved := none, emails := [] }
    | (s, none) =>
      if dryRun then
        { result := some s.syncResult, err := none, heap := s.heap, saved := none, emails := [] }
      else
        let roster := rosterOf s
        match env.SaveUsers roster with
        | some err =>
          { result := none, err := some (.Wrapped "Failed to save users file" err),
            heap := s.heap, saved := some roster, emails := [] }
        | none =>
          let emails :=
            if sendEmails then
              let sleep := decide (newUsers.length > 1)
              notifyAdded s.heap s.syncResult dryRun sleep ++
                notifyModified s.heap s.syncResult dryRun sleep
            else []
          { result := some s.syncResult, err := none, heap := s.heap, saved := some roster,
            emails := emails }

/-- What holds throughout the loop of `SyncNewUsers` when `merge` is false, for an email `e`
of the loaded roster: no email has changed, the loaded users are as loaded, the roster
entry of `e` is the loaded one, the incoming users with email `e` are untouched, are not
in the roster and are in no list, no plaintext password is recorded for `e`, and nothing
is classified as modified. -/
structure SkipInv (stored : List (String × User)) (objects : Nat → User) (e : String)
    (s : SyncState) : Prop where
  emails : ∀ p, (s.heap p).Email = (initialHeap stored objects p).Email
  loaded : ∀ k, s.heap (.Loaded k) = initialHeap stored objects (.Loaded k)
  entry : mapGet s.localUsers e = some (.Loaded e)
  candidates : ∀ id, (objects id).Email = e → s.heap (.Incoming id) = objects id
  noRoster : ∀ id, (objects id).Email = e → ∀ k, mapGet s.localUsers k ≠ some (.Incoming id)
  noClear : mapGet s.syncResult.ClearTextPasswords e = none
  notAdded : ∀ id, (objects id).Email = e → Ptr.Incoming id ∉ s.syncResult.Add
  notSkipped : ∀ id, (objects id).Email = e → Ptr.Incoming id ∉ s.syncResult.Skip
  noMod : s.syncResult.Mod = []

/-- The users of the three lists of a result. -/
def listed (r : UserSyncResult) : List Ptr :=
  r.Skip ++ r.Add ++ r.Mod

/-- The emails of the users behind a list of pointers. -/
def emailsOf (heap : Heap) (ps : List Ptr) : List String :=
  ps.map fun p => (heap p).Email

/-- The emails of the incoming objects with the given numbers. -/
def incomingEmails (objects : Nat → User) (ids : List Nat) : List String :=
  ids.map fun id => (objects id).Email

/-- A merge into a user with email `e`, from a user with email `e`, that changed nothing. -/
def MergedUnchanged (env : SyncEnv) (e : String) : Prop :=
  ∃ this other, this.Email = e ∧ other.Email = e ∧ (env.Merge this other).2 = false

/-- The plaintext `clear` was generated for the user `u` by `SetRandomPassword`. -/
def Generated (env : SyncEnv) (u : User) (clear : String) : Prop :=
  ∃ n hash, env.SetRandomPassword n u = .ok (hash, clear)

/-- What holds in the loop of `SyncNewUsers` after the incoming objects `done` were visited,
when the incoming emails are pairwise distinct and the loaded roster is keyed by email:
no email has changed; the roster is keyed by email and its keys are loaded keys or visited
emails; the listed users have visited emails, no two of them the same email; unvisited
objects are untouched; a plaintext password is recorded only for a visited user that came
without a password, and is recorded for each such user that was not skipped; a visited
email is listed unless a merge into it changed nothing. -/
structure SyncInv (env : SyncEnv) (merge : Bool) (stored : List (String × User))
    (objects : Nat → User) (done : List Nat) (s : SyncState) : Prop where
  emails : ∀ p, (s.heap p).Email = (initialHeap stored objects p).Email
  keyed : ∀ k q, mapGet s.localUsers k = some q → (initialHeap stored objects q).Email = k
  dom : ∀ k q, mapGet s.localUsers k = some q →
    (stored.lookup k).isSome ∨ k ∈ incomingEmails objects done
  listedIn : ∀ p ∈ listed s.syncResult,
    (initialHeap stored objects p).Email ∈ incomingEmails objects done
  nodup : (emailsOf (initialHeap stored objects) (listed s.syncResult)).Nodup
  untouched : ∀ id, (objects id).Email ∉ incomingEmails objects done →
    s.heap (.Incoming id) = objects id
  clearOnly : ∀ k c, mapGet s.syncResult.ClearTextPasswords k = some c →
    ∃ id ∈ done, (objects id).Email = k ∧ (objects id).Pass = "" ∧ Generated env (objects id) c
  clearSet : ∀ id ∈ done, (objects id).Pass = "" →
    (objects id).Email ∈ emailsOf (initialHeap stored objects) s.syncResult.Skip ∨
    ∃ c, Generated env (objects id) c ∧
      mapGet s.syncResult.ClearTextPasswords (objects id).Email = some c
  served : ∀ id ∈ done,
    (objects id).Email ∈ emailsOf (initialHeap stored objects) (listed s.syncResult) ∨
    (merge = true ∧ (stored.lookup (objects id).Email).isSome ∧
      MergedUnchanged env (objects id).Email)

/-- The role the new-user branch stores for a candidate that came with `role`: `Other` for
`Unknown`, else `role` itself. -/
def storedRole (role : UserRole) : UserRole :=
  if role = UserRole.Unknown then UserRole.Other else role

/-- What holds in the loop of `SyncNewUsers` for an incoming object `target` whose email the
loaded roster does not have and no other incoming object shares: no email has changed; an
incoming object is in the roster only under its own email; the target is neither skipped
nor modified; before its visit the roster has no entry for its email and it is as it
came; after its visit it is in `Add`, the roster has it under its email, and its role is
the one the new-user branch stored. -/
structure NewUserInv (stored : List (String × User)) (objects : Nat → User) (target : Nat)
    (visited : Bool) (s : SyncState) : Prop where
  emails : ∀ p, (s.heap p).Email = (initialHeap stored objects p).Email
  incoming : ∀ k j, mapGet s.localUsers k = some (.Incoming j) → (objects j).Email = k
  notSkipped : Ptr.Incoming target ∉ s.syncResult.Skip
  notModified : Ptr.Incoming target ∉ s.syncResult.Mod
  before : visited = false →
    mapGet s.localUsers (objects target).Email = none ∧
    s.heap (.Incoming target) = objects target
  after : visited = true →
    Ptr.Incoming target ∈ s.syncResult.Add ∧
    mapGet s.localUsers (objects target).Email = some (.Incoming target) ∧
    (s.heap (.Incoming target)).Role = storedRole (objects target).Role

/-! ## The scoring report (`report/assignment.go`)

`float64` values are kept abstract: the carrier `F` and the operations on it are
parameters. A `time.Time` is a number of ticks, the zero time being 0. -/

/-- Go `const OVERALL_NAME`. -/
def OVERALL_NAME : String := "<Overall>"

/-- The `float64` operations and helpers the report calls: zero, addition and division,
`util.IsZero`, `util.MinMax`, `stat.MeanStdDev` (without weights), `util.Median`,
`util.DefaultNaN`, the constant `DEFAULT_VALUE`, and `fmt.Sprintf` with two decimals. -/
structure FloatOps (F : Type) where
  zero : F
  add : F → F → F
  div : F → F → F
  IsZero : F → Bool
  MinMax : List F → F × F
  MeanStdDev : List F → F × F
  Median : List F → F
  DefaultNaN : F → F → F
  DEFAULT_VALUE : F
  Sprintf : F → String

/-- The part of `artifact.GradedQuestion` the report reads. -/
structure GradedQuestion (F : Type) where
  Name : String
  Score : F
  MaxPoints : F
  deriving DecidableEq, Repr

/-- The part of `artifact.GradedAssignment` the report reads. -/
structure GradedAssignment (F : Type) where
  GradingStartTime : Nat
  Questions : List (GradedQuestion F)
  deriving DecidableEq, Repr

/-- Go `type ScoringReportQuestionStats struct`. -/
structure ScoringReportQuestionStats (F : Type) where
  QuestionName : String
  Min : F
  Max : F
  Median : F
  Mean : F
  StdDev : F
  MinString : String
  MaxString : String
  MedianString : String
  MeanString : String
  StdDevString : String
  deriving DecidableEq, Repr

/-- Go `type AssignmentScoringReport struct`. `NumberOfSubmissions` is the length of a
slice, a natural number. -/
structure AssignmentScoringReport (F : Type) where
  AssignmentName : String
  NumberOfSubmissions : Nat
  LatestSubmission : Nat
  Questions : List (ScoringReportQuestionStats F)
  LatestSubmissionString : String
  deriving DecidableEq, Repr

/-- The collaborators of the report that are outside the source files: the name of the
assignment, the users of its course (`assignment.GetCourse().GetUsers()`), the paths of
the most recent submission results of these users, by email
(`assignment.GetAllRecentSubmissionResults`), the loading of a result file
(`util.JSONFromFile`), and the formatting of a time. -/
structure ReportEnv (F : Type) where
  GetName : String
  GetUsers : Except Error (List (String × User))
  GetAllRecentSubmissionResults : List (String × User) → Except Error (List (String × String))
  JSONFromFile : String → Except Error (GradedAssignment F)
  Format : Nat → String

/-- The variables of the loop of `fetchScores`. -/
structure FetchState (F : Type) where
  questionNames : List String
  scores : List (String × List F)
  lastSubmissionTime : Nat

/-- The first-submission part of an iteration of `fetchScores`
(`if (len(questionNames) == 0) ...`): every question of the result gets a name in
`questionNames` and an empty slice in `scores`, then `OVERALL_NAME` is appended. -/
def initQuestionNames {F : Type} (st : FetchState F) (result : GradedAssignment F) :
    FetchState F :=
  if st.questionNames.length = 0 then
    let st := result.Questions.foldl
      (fun (st : FetchState F) question =>
        { st with
          questionNames := st.questionNames ++ [question.Name]
          scores := mapSet st.scores question.Name [] })
      st
    { st with questionNames := st.questionNames ++ [OVERALL_NAME] }
  else st

/-- The loop `for _, question := range result.Questions` of `fetchScores` on the triple
`(scores, total, max_points)`. -/
def addQuestionScores {F : Type} (ops : FloatOps F) (questions : List (GradedQuestion F))
    (acc : List (String × List F) × F × F) : List (String × List F) × F × F :=
  questions.foldl
    (fun (acc : List (String × List F) × F × F) question =>
      let score := if !ops.IsZero question.MaxPoints then ops.div question.Score question.MaxPoints
        else ops.zero
      (mapSet acc.1 question.Name ((mapGet acc.1 question.Name).getD [] ++ [score]),
        ops.add acc.2.1 question.Score, ops.add acc.2.2 question.MaxPoints))
    acc

/-- One iteration of the loop `for email, path := range paths` of `fetchScores`. `none` is
the panic of `users[email].Role` on an email without user; an error is the one the
function returns with. -/
def fetchScoresStep {F : Type} (ops : FloatOps F) (env : ReportEnv F)
    (users : List (String × User)) (st : FetchState F) (email path : String) :
    Option (Except Error (FetchState F)) :=
  match mapGet users email with
  | none => none
  | some user =>
    if user.Role ≠ UserRole.Student then some (.ok st)
    else if path = "" then some (.ok st)
    else
      match env.JSONFromFile path with
      | .error err =>
        some (.error (.Wrapped (String.join ["Failed to deserialize submission result ", path])
          err))
      | .ok result =>
        let st :=
          if result.GradingStartTime > st.lastSubmissionTime then
            { st with lastSubmissionTime := result.GradingStartTime }
          else st
        let st := initQuestionNames st result
        let (scores, total, max_points) :=
          addQuestionScores ops result.Questions (st.scores, ops.zero, ops.zero)
        let total_score := if !ops.IsZero max_points then ops.div total max_points else ops.zero
        some (.ok { st with
          scores := mapSet scores OVERALL_NAME
            ((mapGet scores OVERALL_NAME).getD [] ++ [total_score]) })

/-- The loop `for email, path := range paths` of `fetchScores`, over the entries of the map
in iteration order. -/
def fetchScoresLoop {F : Type} (ops : FloatOps F) (env : ReportEnv F)
    (users : List (String × User)) :
    FetchState F → List (String × String) → Option (Except Error (FetchState F))
  | st, [] => some (.ok st)
  | st, (email, path) :: rest =>
    match fetchScoresStep ops env users st email path with
    | none => none
    | some (.error err) => some (.error err)
    | some (.ok st) => fetchScoresLoop ops env users st rest

/-- Go `fetchScores(assignment)`: question names, scores by question name and the time of
the latest submission, or an error; `none` is a panic. -/
def fetchScores {F : Type} (ops : FloatOps F) (env : ReportEnv F) :
    Option (Except Error (FetchState F)) :=
  match env.GetUsers with
  | .error err => some (.error (.Wrapped "Failed to get users for course" err))
  | .ok users =>
    match env.GetAllRecentSubmissionResults users with
    | .error err => some (.error (.Wrapped "Failed to get submission results" err))
    | .ok paths =>
      fetchScoresLoop ops env users
        { questionNames := [], scores := [], lastSubmissionTime := 0 } paths

/-- One iteration of the loop `for _, questionName := range questionNames` of
`GetAssignmentScoringReport` on the pair `(numSubmissions, questions)`. -/
def questionStatsStep {F : Type} (ops : FloatOps F) (scores : List (String × List F))
    (acc : Nat × List (ScoringReportQuestionStats F)) (questionName : String) :
    Nat × List (ScoringReportQuestionStats F) :=
  let values := (mapGet scores questionName).getD []
  let (min, max) := ops.MinMax values
  let (mean, stdDev) := ops.MeanStdDev values
  let median := ops.Median values
  let stats : ScoringReportQuestionStats F :=
    { QuestionName := questionName
      Min := ops.DefaultNaN min ops.DEFAULT_VALUE
      Max := ops.DefaultNaN max ops.DEFAULT_VALUE
      Median := ops.DefaultNaN median ops.DEFAULT_VALUE
      Mean := ops.DefaultNaN mean ops.DEFAULT_VALUE
      StdDev := ops.DefaultNaN stdDev ops.DEFAULT_VALUE
      MinString := ops.Sprintf min
      MaxString := ops.Sprintf max
      MedianString := ops.Sprintf median
      MeanString := ops.Sprintf mean
      StdDevString := ops.Sprintf stdDev }
  (values.length, acc.2 ++ [stats])

/-- Go `GetAssignmentScoringReport(assignment)`: the report or an error; `none` is a
panic. -/
def GetAssignmentScoringReport {F : Type} (ops : FloatOps F) (env : ReportEnv F) :
    Option (Except Error (AssignmentScoringReport F)) :=
  match fetchScores ops env with
  | none => none
  | some (.error err) => some (.error err)
  | some (.ok fetched) =>
    let (numSubmissions, questions) :=
      fetched.questionNames.foldl (questionStatsStep ops fetched.scores) (0, [])
    some (.ok
      { AssignmentName := env.GetName
        NumberOfSubmissions := numSubmissions
        LatestSubmission := fetched.lastSubmissionTime
        LatestSubmissionString := env.Format fetched.lastSubmissionTime
        Questions := questions })

/-- Whether an entry of `paths` is a submission `fetchScores` counts: the user has role
`Student` and the path is not empty. -/
def isCounted (users : List (String × User)) (entry : String × String) : Bool :=
  match mapGet users entry.1 with
  | none => false
  | some user => decide (user.Role = UserRole.Student) && decide (entry.2 ≠ "")

/-- The number of users with role `Student` that have a non-empty most-recent-submission
path. -/
def countedSubmissions (users : List (String × User)) (paths : List (String × String)) : Nat :=
  (paths.filter (isCounted users)).length

/-- The `NumberOfSubmissions` of the report a call returned, if it returned one. -/
def submissionCount {F : Type} (returned : Option (Except Error (AssignmentScoringReport F))) :
    Option Nat :=
  match returned with
  | some (.ok report) => some report.NumberOfSubmissions
  | _ => none

/-! ## Helper definitions for the statements -/

/-- The role a field declares as a minimum, by its type: `MinRoleOwner` declares `Owner`,
and so on; any other field declares none. -/
def minRoleOf : Field → Option UserRole
  | .MinRoleOwner _ => some UserRole.Owner
  | .MinRoleAdmin _ => some UserRole.Admin
  | .MinRoleGrader _ => some UserRole.Grader
  | .MinRoleStudent _ => some UserRole.Student
  | .MinRoleOther _ => some UserRole.Other
  | _ => none

/-- The roles declared by the fields of a struct, in field order. -/
def declaredRoles (fields : List Field) : List UserRole :=
  fields.filterMap minRoleOf

/-- The field with the boolean of a `MinRole*` marker replaced by `b`: two structs have the
same field types and differ only in marker values exactly when they agree after this. -/
def Field.withFlag (b : Bool) : Field → Field
  | .MinRoleOwner _ => .MinRoleOwner b
  | .MinRoleAdmin _ => .MinRoleAdmin b
  | .MinRoleGrader _ => .MinRoleGrader b
  | .MinRoleStudent _ => .MinRoleStudent b
  | .MinRoleOther _ => .MinRoleOther b
  | other => other

/-- Whether a field is one of the two request contexts `ValidateAPIRequest` recognises. -/
def Field.isContext : Field → Bool
  | .CourseUserContext _ => true
  | .AssignmentContext _ => true
  | _ => false

/-- The number of context fields of the struct a request pointer refers to (0 for anything
that is not a pointer to a struct). -/
def contextFieldCount : Value → Nat
  | .Pointer (.Struct fields) => (fields.filter Field.isContext).length
  | _ => 0

/-- The receiver of `APIRequestCourseUserContext.Validate` after the base layer was stamped
by `APIRequest.Validate`. -/
def APIRequestCourseUserContext.stamped (env : Env) (n : Nat)
    (this : APIRequestCourseUserContext) (endpoint : String) : APIRequestCourseUserContext :=
  { this with RequestID := env.UUID n, Endpoint := endpoint, Timestamp := env.NowTimestamp n }

/-- The receiver of `APIRequestCourseUserContext.Validate` once the base layer is stamped and
the course and user references are filled in. -/
def APIRequestCourseUserContext.resolved (env : Env) (n : Nat)
    (this : APIRequestCourseUserContext) (endpoint : String) (course : Course) (u : User) :
    APIRequestCourseUserContext :=
  { this.stamped env n endpoint with course := some course, user := some u }

/-! ## Concrete inputs -/

/-- A course with one assignment. -/
def sampleCourse : Course :=
  { ID := "course101", Assignments := [("hw0", { ID := "hw0", Name := "Homework 0" })] }

/-- A user with role `Grader`. -/
def sampleGrader : User :=
  { Email := "grader@x.edu", Name := "Gia", Role := UserRole.Grader, Pass := "hash-g",
    LMSID := "" }

/-- A user with role `Other`. -/
def sampleOther : User :=
  { Email := "other@x.edu", Name := "Oz", Role := UserRole.Other, Pass := "hash-o",
    LMSID := "" }

/-- An instance of `Auth`: the two sample users are known, each with one password; anything
else is rejected with an authentication error and a nil user. -/
def sampleAuth (this : APIRequestCourseUserContext) : Option User × Option APIError :=
  if this.UserEmail = "grader@x.edu" ∧ this.UserPass = "pw-g" then (some sampleGrader, none)
  else if this.UserEmail = "other@x.edu" ∧ this.UserPass = "pw-o" then (some sampleOther, none)
  else (none, some (.Unauthenticated this "Authentication failure."))

/-- An environment with one course and two users. -/
def sampleEnv : Env :=
  { UUID := fun n => String.join ["id-", toString n]
    NowTimestamp := fun n => String.join ["t-", toString n]
    GetCourse := fun id => if id = "course101" then some sampleCourse else none
    Auth := sampleAuth }

/-- A course/user context as it comes off the wire, sent by the grader. -/
def sampleContext : APIRequestCourseUserContext :=
  { RequestID := "", Endpoint := "", Timestamp := "", CourseID := "course101",
    UserEmail := "grader@x.edu", UserPass := "pw-g", course := none, user := none }

/-- The fields of a request struct that embeds `sampleContext` and declares
`MinRoleStudent`. -/
def sampleFields : List Field :=
  [.CourseUserContext sampleContext, .MinRoleStudent false, .Other "string"]

/-- An assignment context sent by the user of role `Other`, naming the assignment `id`. -/
def sampleAssignmentContext (id : String) : APIRequestAssignmentContext :=
  { RequestID := "", Endpoint := "", Timestamp := "", CourseID := "course101",
    UserEmail := "other@x.edu", UserPass := "pw-o", course := none, user := none,
    AssignmentID := id, assignment := none }

/-- The course/user layer of `sampleAssignmentContext` after a validation that got as far as
the role check at endpoint `submission/peek`. -/
def sampleDenied : APIRequestCourseUserContext :=
  APIRequestCourseUserContext.resolved sampleEnv 0
    (sampleAssignmentContext "").toAPIRequestCourseUserContext "submission/peek" sampleCourse
    sampleOther

/-- A request struct with two context fields: the grader's course/user context and an
assignment context of the other user that names the unknown assignment `hw9`. -/
def twoContextFields : List Field :=
  [.CourseUserContext sampleContext, .AssignmentContext (sampleAssignmentContext "hw9"),
    .MinRoleOther false]

/-- A request struct with one context field whose password is missing. -/
def missingPassFields : List Field :=
  [.CourseUserContext { sampleContext with UserPass := "" }, .MinRoleStudent false]

/-- Modelled from the spec: `usr.User.Merge` is not among the source files. Each non-empty
field of the other user (a role other than `Unknown`) that differs from the receiver's
overwrites it; the result says whether any field changed. The email is the key and is
left alone. -/
def sampleMerge (this other : User) : User × Bool :=
  let name := if other.Name ≠ "" then other.Name else this.Name
  let role := if other.Role ≠ UserRole.Unknown then other.Role else this.Role
  let pass := if other.Pass ≠ "" then other.Pass else this.Pass
  let lmsid := if other.LMSID ≠ "" then other.LMSID else this.LMSID
  let merged : User :=
    { Email := this.Email, Name := name, Role := role, Pass := pass, LMSID := lmsid }
  (merged, decide (merged ≠ this))

/-- Collaborators for the concrete runs: the users file holds `stored`, saving succeeds, the
`n`-th generated password is `pw-n` and is stored as `hash-pw-n`, a given hash is stored
as it is, and merging is `sampleMerge`. -/
def sampleSyncEnv (stored : List (String × User)) : SyncEnv :=
  { GetUsers := .ok stored
    SaveUsers := fun _ => none
    SetRandomPassword := fun n _ =>
      .ok (String.join ["hash-pw-", toString n], String.join ["pw-", toString n])
    SetPassword := fun _ hash => .ok hash
    Merge := sampleMerge }

/-- A user record with the given email, role and password hash. -/
def sampleUser (email : String) (role : UserRole) (pass : String) : User :=
  { Email := email, Name := "", Role := role, Pass := pass, LMSID := "" }

/-- The student `a@x.com` as stored in the users file. -/
def sampleStudent : User :=
  { sampleUser "a@x.com" UserRole.Student "hash-a" with Name := "Al" }

/-- The result of the concrete run with `merge` false: `b@x.com` added, `a@x.com`
skipped. -/
def sampleSkipResult : UserSyncResult :=
  { Add := [.Incoming 1], Mod := [], Skip := [.Loaded "a@x.com"],
    ClearTextPasswords := [("b@x.com", "pw-0")] }

/-- The users file of the concrete runs: one student, `a@x.com`. -/
def sampleStored : List (String × User) :=
  [("a@x.com", sampleStudent)]

/-- Incoming objects: number 0 is `a@x.com` as a grader without a password, number 1 is
`b@x.com` without role or password, number 2 is `b@x.com` again with a password hash
and a name, every other number is `c@x.com` with a password hash. -/
def sampleObjects : Nat → User
  | 0 => sampleUser "a@x.com" UserRole.Grader ""
  | 1 => sampleUser "b@x.com" UserRole.Unknown ""
  | 2 => { sampleUser "b@x.com" UserRole.Unknown "hash-b" with Name := "Bea" }
  | _ => sampleUser "c@x.com" UserRole.Student "hash-c"

/-- An incoming map in which two keys hold users with the same email `b@x.com`: object 1
came without a password, object 2 with one. -/
def twiceB : List (String × Nat) :=
  [("b@x.com", 1), ("B@x.com", 2)]

/-- The result of merging `twiceB` into the sample roster: the user behind object 1 is both
added and modified. -/
def twiceBResult : UserSyncResult :=
  { Add := [.Incoming 1], Mod := [.Incoming 1], Skip := [],
    ClearTextPasswords := [("b@x.com", "pw-0")] }

/-- An incoming map keyed by email: `a@x.com` (object 0) and `b@x.com` (object 1). -/
def sampleNewUsers : List (String × Nat) :=
  [("a@x.com", 0), ("b@x.com", 1)]

/-- The result of merging `sampleNewUsers` into the sample roster: `a@x.com` is modified,
`b@x.com` is added, both with a generated password. -/
def sampleMergeResult : UserSyncResult :=
  { Add := [.Incoming 1], Mod := [.Loaded "a@x.com"], Skip := [],
    ClearTextPasswords := [("a@x.com", "pw-0"), ("b@x.com", "pw-1")] }

/-- The state the loop has reached in the concrete merge run when it visits `b@x.com`:
`a@x.com` was merged into the loaded user. -/
def sampleVisitState : SyncState :=
  (syncLoop (sampleSyncEnv sampleStored) true (startState sampleStored sampleObjects)
    (incomingPtrs [("a@x.com", 0)])).1

/-- Stand-ins over the integers for the `float64` operations, for the concrete runs:
integer division, the least and greatest element, the integer mean with deviation 0, and
the first element as median; nothing is ever NaN. -/
def sampleFloatOps : FloatOps Int :=
  { zero := 0
    add := fun a b => a + b
    div := fun a b => a / b
    IsZero := fun a => decide (a = 0)
    MinMax := fun xs => (xs.foldl min (xs.headD 0), xs.foldl max (xs.headD 0))
    MeanStdDev := fun xs => (xs.sum / xs.length, 0)
    Median := fun xs => xs.headD 0
    DefaultNaN := fun a _ => a
    DEFAULT_VALUE := -1
    Sprintf := fun a => toString a }

/-- A course with one student and one grader, each with a most recent submission; the
result file of the student is `student`, that of the grader is the same file. -/
def sampleReportEnv (student : GradedAssignment Int) : ReportEnv Int :=
  { GetName := "Homework 0"
    GetUsers := .ok [("a@x.com", sampleStudent), ("grader@x.edu", sampleGrader)]
    GetAllRecentSubmissionResults := fun _ =>
      .ok [("a@x.com", "results/a.json"), ("grader@x.edu", "results/g.json")]
    JSONFromFile := fun _ => .ok student
    Format := fun t => toString t }

/-- A graded submission with the questions `Q1` and `Q2`. -/
def sampleGraded : GradedAssignment Int :=
  { GradingStartTime := 5
    Questions := [{ Name := "Q1", Score := 1, MaxPoints := 2 },
                  { Name := "Q2", Score := 3, MaxPoints := 3 }] }

/-- A graded submission one of whose questions is named like `OVERALL_NAME`. -/
def overallGraded : GradedAssignment Int :=
  { GradingStartTime := 5
    Questions := [{ Name := "Q1", Score := 1, MaxPoints := 2 },
                  { Name := "<Overall>", Score := 3, MaxPoints := 3 }] }

/-- The result of `twiceB` against the sample roster with `merge` false: the user behind
object 1 is added and then skipped. -/
def twiceBSkipResult : UserSyncResult :=
  { Add := [.Incoming 1], Mod := [], Skip := [.Incoming 1],
    ClearTextPasswords := [("b@x.com", "pw-0")] }

/-! ## Lemmas about roles and `getMaxRole` -/

theorem UserRole.toNat_injective (a b : UserRole) (h : a.toNat = b.toNat) : a = b := by
  cases a <;> cases b <;> first | rfl | (simp [UserRole.toNat] at h)

theorem UserRole.lt_iff (a b : UserRole) : a < b ↔ a.toNat < b.toNat := Iff.rfl

theorem UserRole.le_iff (a b : UserRole) : a ≤ b ↔ a.toNat ≤ b.toNat := Iff.rfl

theorem getMaxRoleStep_of_none (acc : UserRole × Bool) (f : Field) (h : minRoleOf f = none) :
    getMaxRoleStep acc f = acc := by
  cases f <;> simp [minRoleOf] at h <;> rfl

theorem getMaxRoleStep_of_some (acc : UserRole × Bool) (f : Field) (r : UserRole)
    (h : minRoleOf f = some r) :
    getMaxRoleStep acc f = (if acc.1 < r then r else acc.1, true) := by
  cases f <;> simp [minRoleOf] at h <;> subst h <;> rfl

/-- The loop of `getMaxRole` started at `acc`: the flag is set as soon as a role is declared,
and the role is the greatest of the start value and the declared roles. -/
theorem foldl_getMaxRoleStep (fields : List Field) (acc : UserRole × Bool) :
    ((fields.foldl getMaxRoleStep acc).2 = (acc.2 || !(declaredRoles fields).isEmpty)) ∧
    ((fields.foldl getMaxRoleStep acc).1 = acc.1 ∨
      (fields.foldl getMaxRoleStep acc).1 ∈ declaredRoles fields) ∧
    acc.1 ≤ (fields.foldl getMaxRoleStep acc).1 ∧
    ∀ r ∈ declaredRoles fields, r ≤ (fields.foldl getMaxRoleStep acc).1 := by
  induction fields generalizing acc with
  | nil => simp [declaredRoles, UserRole.le_iff]
  | cons f rest ih =>
    cases hf : minRoleOf f with
    | none =>
      have hd : declaredRoles (f :: rest) = declaredRoles rest := by
        simp [declaredRoles, List.filterMap_cons, hf]
      rw [List.foldl_cons, getMaxRoleStep_of_none acc f hf, hd]
      exact ih acc
    | some r =>
      have hd : declaredRoles (f :: rest) = r :: declaredRoles rest := by
        simp [declaredRoles, List.filterMap_cons, hf]
      rw [List.foldl_cons, getMaxRoleStep_of_some acc f r hf, hd]
      have hacc : ∃ a, (if acc.1 < r then r else acc.1) = a ∧ acc.1.toNat ≤ a.toNat ∧
          r.toNat ≤ a.toNat ∧ (a = acc.1 ∨ a = r) := by
        by_cases hlt : acc.1 < r
        · refine ⟨r, if_pos hlt, ?_, le_refl _, Or.inr rfl⟩
          rw [UserRole.lt_iff] at hlt
          omega
        · refine ⟨acc.1, if_neg hlt, le_refl _, ?_, Or.inl rfl⟩
          rw [UserRole.lt_iff] at hlt
          omega
      obtain ⟨a, ha, hle1, hle2, hor⟩ := hacc
      rw [ha]
      obtain ⟨h1, h2, h3, h4⟩ := ih (a, true)
      simp only [UserRole.le_iff] at h3 h4 ⊢
      refine ⟨?_, ?_, ?_, ?_⟩
      · simp [h1]
      · rcases h2 with h2 | h2
        · rcases hor with hor | hor
          · left; rw [h2, hor]
          · right; rw [h2, hor]; exact List.mem_cons_self _ _
        · right; exact List.mem_cons_of_mem _ h2
      · omega
      · intro x hx
        rcases List.mem_cons.mp hx with hx | hx
        · subst hx
          omega
        · exact h4 x hx

theorem getMaxRole_struct (fields : List Field) :
    getMaxRole (.Struct fields) = some (fields.foldl getMaxRoleStep (UserRole.Unknown, false)) :=
  rfl

theorem getMaxRole_pointer_struct (fields : List Field) :
    getMaxRole (.Pointer (.Struct fields)) =
      some (fields.foldl getMaxRoleStep (UserRole.Unknown, false)) :=
  rfl

/-- When no field declares a role, the loop returns `(Unknown, false)`. -/
theorem foldl_getMaxRoleStep_none (fields : List Field)
    (h : declaredRoles fields = []) :
    fields.foldl getMaxRoleStep (UserRole.Unknown, false) = (UserRole.Unknown, false) := by
  obtain ⟨h1, h2, _, _⟩ := foldl_getMaxRoleStep fields (UserRole.Unknown, false)
  rw [h] at h1 h2
  simp at h1 h2
  exact Prod.ext h2 h1

/-- When some field declares a role, the loop returns the greatest declared role and
`true`. -/
theorem foldl_getMaxRoleStep_some (fields : List Field)
    (h : declaredRoles fields ≠ []) :
    ∃ m, fields.foldl getMaxRoleStep (UserRole.Unknown, false) = (m, true) ∧
      m ∈ declaredRoles fields ∧ ∀ r ∈ declaredRoles fields, r ≤ m := by
  obtain ⟨h1, h2, _, h4⟩ := foldl_getMaxRoleStep fields (UserRole.Unknown, false)
  refine ⟨(fields.foldl getMaxRoleStep (UserRole.Unknown, false)).1, ?_, ?_, h4⟩
  · refine Prod.ext rfl ?_
    rw [h1]
    cases hd : declaredRoles fields with
    | nil => exact absurd hd h
    | cons a l => simp
  · rcases h2 with h2 | h2
    · cases hd : declaredRoles fields with
      | nil => exact absurd hd h
      | cons a l =>
        have ha := h4 a (by rw [hd]; exact List.mem_cons_self _ _)
        rw [h2, UserRole.le_iff] at ha
        have : a = UserRole.Unknown := UserRole.toNat_injective _ _ (by
          simp only [UserRole.toNat] at ha ⊢
          omega)
        rw [← hd, h2, ← this, hd]
        exact List.mem_cons_self _ _
    · exact h2

/-- The result of the loop depends only on the set of declared roles. -/
theorem foldl_getMaxRoleStep_congr (fields fields' : List Field)
    (h : ∀ r, r ∈ declaredRoles fields ↔ r ∈ declaredRoles fields') :
    fields.foldl getMaxRoleStep (UserRole.Unknown, false) =
      fields'.foldl getMaxRoleStep (UserRole.Unknown, false) := by
  by_cases hd : declaredRoles fields = []
  · have hd' : declaredRoles fields' = [] := by
      apply List.eq_nil_iff_forall_not_mem.mpr
      intro r hr
      have := (h r).mpr hr
      rw [hd] at this
      exact List.not_mem_nil _ this
    rw [foldl_getMaxRoleStep_none fields hd, foldl_getMaxRoleStep_none fields' hd']
  · have hd' : declaredRoles fields' ≠ [] := by
      intro h0
      apply hd
      apply List.eq_nil_iff_forall_not_mem.mpr
      intro r hr
      have := (h r).mp hr
      rw [h0] at this
      exact List.not_mem_nil _ this
    obtain ⟨m, hm, hmem, hmax⟩ := foldl_getMaxRoleStep_some fields hd
    obtain ⟨m', hm', hmem', hmax'⟩ := foldl_getMaxRoleStep_some fields' hd'
    have h1 := hmax' m ((h m).mp hmem)
    have h2 := hmax m' ((h m').mpr hmem')
    rw [UserRole.le_iff] at h1 h2
    have : m = m' := UserRole.toNat_injective _ _ (by omega)
    rw [hm, hm', this]

theorem minRoleOf_withFlag (b : Bool) (f : Field) : minRoleOf (f.withFlag b) = minRoleOf f := by
  cases f <;> rfl

theorem declaredRoles_withFlag (b : Bool) (fields : List Field) :
    declaredRoles (fields.map (Field.withFlag b)) = declaredRoles fields := by
  induction fields with
  | nil => rfl
  | cons f rest ih =>
    simp only [declaredRoles, List.map_cons, List.filterMap_cons, minRoleOf_withFlag] at ih ⊢
    rw [ih]

/-! ## Lemmas about `ValidateAPIRequest` -/

/-- Over fields none of which is a context, the loop of `ValidateAPIRequest` changes nothing
and returns no error. -/
theorem validateFields_no_context (env : Env) (endpoint : String) (todo : List Field) :
    ∀ (n : Nat) (done : List Field) (found : Bool),
      (todo.filter Field.isContext).length = 0 →
      validateFields env endpoint n done todo found = some (done ++ todo, found, none) := by
  induction todo with
  | nil => intro n done found _; simp [validateFields]
  | cons f rest ih =>
    intro n done found h
    cases f with
    | CourseUserContext c => simp [List.filter, Field.isContext] at h
    | AssignmentContext c => simp [List.filter, Field.isContext] at h
    | MinRoleOwner b | MinRoleAdmin b | MinRoleGrader b | MinRoleStudent b | MinRoleOther b
    | Other t =>
      simp only [List.filter, Field.isContext] at h
      simp only [validateFields]
      rw [ih n _ found h]
      simp

/-- Over fields of which at most one is a context, an error from the loop of
`ValidateAPIRequest` comes with the struct as it was. -/
theorem validateFields_error_unchanged (env : Env) (endpoint : String) (todo : List Field) :
    ∀ (n : Nat) (done : List Field) (found : Bool) (fields' : List Field) (found' : Bool)
      (e : APIError),
      (todo.filter Field.isContext).length ≤ 1 →
      validateFields env endpoint n done todo found = some (fields', found', some e) →
      fields' = done ++ todo := by
  induction todo with
  | nil => intro n done found fields' found' e _ h; simp [validateFields] at h
  | cons f rest ih =>
    intro n done found fields' found' e hcount h
    cases f with
    | CourseUserContext c =>
      have hrest : (rest.filter Field.isContext).length = 0 := by
        simp only [List.filter, Field.isContext, List.length_cons] at hcount
        omega
      simp only [validateFields] at h
      split at h
      · exact Option.noConfusion h
      · simp only [Option.some.injEq, Prod.mk.injEq] at h
        exact h.1.symm
      · rw [validateFields_no_context env endpoint rest _ _ _ hrest] at h
        simp at h
    | AssignmentContext c =>
      have hrest : (rest.filter Field.isContext).length = 0 := by
        simp only [List.filter, Field.isContext, List.length_cons] at hcount
        omega
      simp only [validateFields] at h
      split at h
      · exact Option.noConfusion h
      · simp only [Option.some.injEq, Prod.mk.injEq] at h
        exact h.1.symm
      · rw [validateFields_no_context env endpoint rest _ _ _ hrest] at h
        simp at h
    | MinRoleOwner b | MinRoleAdmin b | MinRoleGrader b | MinRoleStudent b | MinRoleOther b
    | Other t =>
      simp only [List.filter, Field.isContext] at hcount
      simp only [validateFields] at h
      have := ih n _ found fields' found' e hcount h
      rw [this]
      simp

/-- Once a context field was found, the loop of `ValidateAPIRequest` reports so. -/
theorem validateFields_found (env : Env) (endpoint : String) (todo : List Field) :
    ∀ (n : Nat) (done : List Field) (fields' : List Field) (found' : Bool)
      (err : Option APIError),
      validateFields env endpoint n done todo true = some (fields', found', err) →
      found' = true := by
  induction todo with
  | nil =>
    intro n done fields' found' err h
    simp only [validateFields, Option.some.injEq, Prod.mk.injEq] at h
    exact h.2.1.symm
  | cons f rest ih =>
    intro n done fields' found' err h
    cases f with
    | CourseUserContext c =>
      simp only [validateFields] at h
      split at h
      · exact Option.noConfusion h
      · simp only [Option.some.injEq, Prod.mk.injEq] at h
        exact h.2.1.symm
      · exact ih _ _ _ _ _ h
    | AssignmentContext c =>
      simp only [validateFields] at h
      split at h
      · exact Option.noConfusion h
      · simp only [Option.some.injEq, Prod.mk.injEq] at h
        exact h.2.1.symm
      · exact ih _ _ _ _ _ h
    | MinRoleOwner b | MinRoleAdmin b | MinRoleGrader b | MinRoleStudent b | MinRoleOther b
    | Other t =>
      simp only [validateFields] at h
      exact ih _ _ _ _ _ h

/-- When the loop of `ValidateAPIRequest` ends without having found a context field, the
struct is as it was. -/
theorem validateFields_not_found (env : Env) (endpoint : String) (todo : List Field) :
    ∀ (n : Nat) (done : List Field) (fields' : List Field) (err : Option APIError),
      validateFields env endpoint n done todo false = some (fields', false, err) →
      fields' = done ++ todo := by
  induction todo with
  | nil =>
    intro n done fields' err h
    simp only [validateFields, Option.some.injEq, Prod.mk.injEq] at h
    simp [h.1]
  | cons f rest ih =>
    intro n done fields' err h
    cases f with
    | CourseUserContext c =>
      simp only [validateFields] at h
      split at h
      · exact Option.noConfusion h
      · simp at h
      · have := validateFields_found env endpoint rest _ _ _ _ _ h
        exact Bool.noConfusion this
    | AssignmentContext c =>
      simp only [validateFields] at h
      split at h
      · exact Option.noConfusion h
      · simp at h
      · have := validateFields_found env endpoint rest _ _ _ _ _ h
        exact Bool.noConfusion this
    | MinRoleOwner b | MinRoleAdmin b | MinRoleGrader b | MinRoleStudent b | MinRoleOther b
    | Other t =>
      simp only [validateFields] at h
      have := ih n _ fields' err h
      rw [this]
      simp

/-! ## Claims about request validation -/

/-- C1: for a request with non-empty course id, user email and password, whose course is
found, whose authentication succeeds with user `u` and whose declared minimum role
(`getMaxRole` of the request) is `R`, `APIRequestCourseUserContext.Validate` returns a
bad-permissions error when `u.Role < R`, and returns no error with the course and user
references populated when `R ≤ u.Role`; roles are compared by ordinal. -/
theorem courseUser_validate_role_check (env : Env) (n : Nat)
    (this : APIRequestCourseUserContext) (request : Value) (endpoint : String)
    (course : Course) (u : User) (R : UserRole)
    (hCourseID : this.CourseID ≠ "") (hEmail : this.UserEmail ≠ "")
    (hPass : this.UserPass ≠ "")
    (hCourse : env.GetCourse this.CourseID = some course)
    (hAuth : env.Auth { this.stamped env n endpoint with course := some course } =
      (some u, none))
    (hRole : getMaxRole request = some (R, true)) :
    (u.Role < R ↔ u.Role.toNat < R.toNat) ∧
    (u.Role < R →
      this.Validate env n request endpoint =
        some (this.resolved env n endpoint course u,
          some (NewBadPermissionsError (this.resolved env n endpoint course u) R "")) ∧
      (NewBadPermissionsError (this.resolved env n endpoint course u) R "").isBadPermissions
        = true) ∧
    (R ≤ u.Role →
      this.Validate env n request endpoint =
        some (this.resolved env n endpoint course u, none) ∧
      (this.resolved env n endpoint course u).course = some course ∧
      (this.resolved env n endpoint course u).user = some u) := by
  simp only [APIRequestCourseUserContext.stamped] at hAuth
  refine ⟨Iff.rfl, ?_, ?_⟩
  · intro hlt
    simp [APIRequestCourseUserContext.Validate, APIRequest.Validate, hCourseID, hEmail, hPass,
      hCourse, hAuth, hRole, hlt, NewBadPermissionsError, APIError.isBadPermissions,
      APIRequestCourseUserContext.resolved, APIRequestCourseUserContext.stamped]
  · intro hle
    have hge : ¬ u.Role < R := by
      rw [UserRole.le_iff] at hle
      rw [UserRole.lt_iff]
      omega
    simp [APIRequestCourseUserContext.Validate, APIRequest.Validate, hCourseID, hEmail, hPass,
      hCourse, hAuth, hRole, hge, APIRequestCourseUserContext.resolved,
      APIRequestCourseUserContext.stamped]

/-- C1, at a concrete request: a grader calling a request that declares `MinRoleStudent`
is let through with course and user populated. -/
theorem courseUser_validate_role_check_witness :
    sampleContext.Validate sampleEnv 0 (.Pointer (.Struct sampleFields)) "grading/peek" =
      some (sampleContext.resolved sampleEnv 0 "grading/peek" sampleCourse sampleGrader, none) :=
  ((courseUser_validate_role_check sampleEnv 0 sampleContext (.Pointer (.Struct sampleFields))
    "grading/peek" sampleCourse sampleGrader UserRole.Student (by decide) (by decide)
    (by decide) (by decide) (by decide) (by decide)).2.2 (by decide)).1

/-- C2: when `CourseID`, `UserEmail` or `UserPass` is empty,
`APIRequestCourseUserContext.Validate` returns a bad-request error, and the whole result
(receiver and error) is one and the same for every course store `GetCourse` and every
user store `Auth`: neither lookup is made, and the course and user references of the
receiver stay as they were. -/
theorem courseUser_validate_missing_field (uuid now : Nat → String) (n : Nat)
    (this : APIRequestCourseUserContext) (request : Value) (endpoint : String)
    (h : this.CourseID = "" ∨ this.UserEmail = "" ∨ this.UserPass = "") :
    ∃ message,
      ∀ (getCourse : String → Option Course)
        (auth : APIRequestCourseUserContext → Option User × Option APIError),
        this.Validate ⟨uuid, now, getCourse, auth⟩ n request endpoint =
          some ({ this with RequestID := uuid n, Endpoint := endpoint, Timestamp := now n },
            some (.BadRequest ⟨uuid n, endpoint, now n⟩ message [])) ∧
        (APIError.BadRequest ⟨uuid n, endpoint, now n⟩ message []).isBadRequest = true := by
  by_cases h1 : this.CourseID = ""
  · refine ⟨"No course ID specified.", fun getCourse auth => ?_⟩
    simp [APIRequestCourseUserContext.Validate, APIRequest.Validate, h1, NewBadRequestError,
      APIError.isBadRequest]
  · by_cases h2 : this.UserEmail = ""
    · refine ⟨"No user email specified.", fun getCourse auth => ?_⟩
      simp [APIRequestCourseUserContext.Validate, APIRequest.Validate, h1, h2,
        NewBadRequestError, APIError.isBadRequest]
    · have h3 : this.UserPass = "" := by
        rcases h with h | h | h
        · exact absurd h h1
        · exact absurd h h2
        · exact h
      refine ⟨"No user password specified.", fun getCourse auth => ?_⟩
      simp [APIRequestCourseUserContext.Validate, APIRequest.Validate, h1, h2, h3,
        NewBadRequestError, APIError.isBadRequest]

/-- C2, at a concrete request: with an empty password the result is the same bad-request
error under the sample stores and under empty stores. -/
theorem courseUser_validate_missing_field_witness :
    ∃ message,
      ∀ (getCourse : String → Option Course)
        (auth : APIRequestCourseUserContext → Option User × Option APIError),
        ({ sampleContext with UserPass := "" } : APIRequestCourseUserContext).Validate
            ⟨sampleEnv.UUID, sampleEnv.NowTimestamp, getCourse, auth⟩ 0
            (.Pointer (.Struct sampleFields)) "grading/peek" =
          some ({ sampleContext with
              UserPass := "", RequestID := sampleEnv.UUID 0, Endpoint := "grading/peek",
              Timestamp := sampleEnv.NowTimestamp 0 },
            some (.BadRequest ⟨sampleEnv.UUID 0, "grading/peek", sampleEnv.NowTimestamp 0⟩
              message [])) ∧
        (APIError.BadRequest ⟨sampleEnv.UUID 0, "grading/peek", sampleEnv.NowTimestamp 0⟩
          message []).isBadRequest = true :=
  courseUser_validate_missing_field sampleEnv.UUID sampleEnv.NowTimestamp 0
    { sampleContext with UserPass := "" } (.Pointer (.Struct sampleFields)) "grading/peek"
    (Or.inr (Or.inr rfl))

/-- C3: on a struct value and on a pointer to a struct alike, `getMaxRole` returns
`(Unknown, false)` when no field has a `MinRole*` type and `(m, true)` with `m` the
greatest declared role (`m` is declared and every declared role is at most `m`) when one
has; the result is the same for every reordering of the fields and for every setting of
the booleans the marker fields hold. -/
theorem getMaxRole_greatest_declared (fields : List Field) :
    getMaxRole (.Pointer (.Struct fields)) = getMaxRole (.Struct fields) ∧
    (declaredRoles fields = [] →
      getMaxRole (.Struct fields) = some (UserRole.Unknown, false)) ∧
    (declaredRoles fields ≠ [] →
      ∃ m, getMaxRole (.Struct fields) = some (m, true) ∧
        m ∈ declaredRoles fields ∧ ∀ r ∈ declaredRoles fields, r ≤ m) ∧
    (∀ fields', fields'.Perm fields →
      getMaxRole (.Struct fields') = getMaxRole (.Struct fields)) ∧
    (∀ fields', fields'.map (Field.withFlag true) = fields.map (Field.withFlag true) →
      getMaxRole (.Struct fields') = getMaxRole (.Struct fields)) := by
  refine ⟨rfl, ?_, ?_, ?_, ?_⟩
  · intro h
    rw [getMaxRole_struct, foldl_getMaxRoleStep_none fields h]
  · intro h
    obtain ⟨m, hm, hmem, hmax⟩ := foldl_getMaxRoleStep_some fields h
    exact ⟨m, by rw [getMaxRole_struct, hm], hmem, hmax⟩
  · intro fields' hperm
    rw [getMaxRole_struct, getMaxRole_struct]
    congr 1
    apply foldl_getMaxRoleStep_congr
    intro r
    exact (hperm.filterMap minRoleOf).mem_iff
  · intro fields' hsame
    rw [getMaxRole_struct, getMaxRole_struct]
    congr 1
    apply foldl_getMaxRoleStep_congr
    intro r
    rw [← declaredRoles_withFlag true fields', ← declaredRoles_withFlag true fields, hsame]

/-- C3, at a concrete struct: of `MinRoleOther`, `MinRoleAdmin` and `MinRoleStudent` the
result is `Admin`, also with the fields reversed. -/
theorem getMaxRole_greatest_declared_witness :
    getMaxRole (.Struct [.MinRoleStudent false, .Other "int", .MinRoleAdmin false,
        .MinRoleOther false]) =
      getMaxRole (.Struct [.MinRoleOther false, .MinRoleAdmin false, .Other "int",
        .MinRoleStudent false]) ∧
    getMaxRole (.Struct [.MinRoleOther false, .MinRoleAdmin false, .Other "int",
        .MinRoleStudent false]) = some (UserRole.Admin, true) :=
  ⟨(getMaxRole_greatest_declared [.MinRoleOther false, .MinRoleAdmin false, .Other "int",
      .MinRoleStudent false]).2.2.2.1 _ (by decide),
    by decide⟩

/-- C5: when the enclosing course/user validation returns an error `e` (whatever its
cause), `APIRequestAssignmentContext.Validate` returns that same `e` for every value of
`AssignmentID` and of the assignment reference, and leaves both as they were (an unset
reference stays unset): the assignment id and the assignment map of the course are not
looked at, so the error is the same whether the named assignment exists or not. -/
theorem assignment_validate_outer_error (env : Env) (n : Nat)
    (this : APIRequestAssignmentContext) (request : Value) (endpoint : String)
    (inner : APIRequestCourseUserContext) (e : APIError)
    (h : this.toAPIRequestCourseUserContext.Validate env n request endpoint =
      some (inner, some e)) :
    ∀ (id : String) (ref : Option Assignment),
      ({ this with AssignmentID := id, assignment := ref } :
          APIRequestAssignmentContext).Validate env n request endpoint =
        some ({ toAPIRequestCourseUserContext := inner, AssignmentID := id, assignment := ref },
          some e) := by
  intro id ref
  simp only [APIRequestAssignmentContext.Validate, h]

/-- C5, at a concrete request: a user of role `Other` calling a request that declares
`MinRoleGrader` gets the same bad-permissions error for the existing assignment `hw0`
and for the unknown assignment `hw9`, and the assignment reference stays unset. -/
theorem assignment_validate_outer_error_witness :
    (sampleAssignmentContext "hw0").Validate sampleEnv 0
        (.Pointer (.Struct [.MinRoleGrader false])) "submission/peek" =
      some ({ toAPIRequestCourseUserContext := sampleDenied, AssignmentID := "hw0",
               assignment := none },
        some (NewBadPermissionsError sampleDenied UserRole.Grader "")) ∧
    (sampleAssignmentContext "hw9").Validate sampleEnv 0
        (.Pointer (.Struct [.MinRoleGrader false])) "submission/peek" =
      some ({ toAPIRequestCourseUserContext := sampleDenied, AssignmentID := "hw9",
               assignment := none },
        some (NewBadPermissionsError sampleDenied UserRole.Grader "")) :=
  ⟨assignment_validate_outer_error sampleEnv 0 (sampleAssignmentContext "")
      (.Pointer (.Struct [.MinRoleGrader false])) "submission/peek" _ _ (by decide) "hw0" none,
    assignment_validate_outer_error sampleEnv 0 (sampleAssignmentContext "")
      (.Pointer (.Struct [.MinRoleGrader false])) "submission/peek" _ _ (by decide) "hw9" none⟩

/-- C6: for a request (a struct or a pointer to one) with non-empty course id, user email
and password, an existing course and a successful authentication, when no field of the
request has a `MinRole*` type `APIRequestCourseUserContext.Validate` returns an internal
error, whatever the role of the authenticated user. -/
theorem courseUser_validate_no_role (env : Env) (n : Nat)
    (this : APIRequestCourseUserContext) (request : Value) (fields : List Field)
    (endpoint : String) (course : Course) (u : User)
    (hCourseID : this.CourseID ≠ "") (hEmail : this.UserEmail ≠ "")
    (hPass : this.UserPass ≠ "")
    (hCourse : env.GetCourse this.CourseID = some course)
    (hAuth : env.Auth { this.stamped env n endpoint with course := some course } =
      (some u, none))
    (hStruct : request = .Struct fields ∨ request = .Pointer (.Struct fields))
    (hNone : ∀ f ∈ fields, minRoleOf f = none) :
    this.Validate env n request endpoint =
      some (this.resolved env n endpoint course u,
        some (NewInternalError (this.resolved env n endpoint course u)
          "No role found for request. All request structs require a minimum role.")) ∧
    (NewInternalError (this.resolved env n endpoint course u)
      "No role found for request. All request structs require a minimum role.").isInternal
        = true := by
  have hd : declaredRoles fields = [] := by
    apply List.eq_nil_iff_forall_not_mem.mpr
    intro r hr
    obtain ⟨f, hf, hfr⟩ := List.mem_filterMap.mp hr
    rw [hNone f hf] at hfr
    exact Option.noConfusion hfr
  have hRole : getMaxRole request = some (UserRole.Unknown, false) := by
    rcases hStruct with hs | hs
    · rw [hs, getMaxRole_struct, foldl_getMaxRoleStep_none fields hd]
    · rw [hs, getMaxRole_pointer_struct, foldl_getMaxRoleStep_none fields hd]
  simp only [APIRequestCourseUserContext.stamped] at hAuth
  simp [APIRequestCourseUserContext.Validate, APIRequest.Validate, hCourseID, hEmail, hPass,
    hCourse, hAuth, hRole, NewInternalError, APIError.isInternal,
    APIRequestCourseUserContext.resolved, APIRequestCourseUserContext.stamped]

/-- C6, at a concrete request: an owner calling a request that declares no role gets the
internal error. -/
theorem courseUser_validate_no_role_witness :
    sampleContext.Validate
        { sampleEnv with Auth := fun _ => (some { sampleGrader with Role := UserRole.Owner }, none) }
        0 (.Pointer (.Struct [.CourseUserContext sampleContext, .Other "string"]))
        "grading/peek" =
      some (sampleContext.resolved sampleEnv 0 "grading/peek" sampleCourse
          { sampleGrader with Role := UserRole.Owner },
        some (NewInternalError (sampleContext.resolved sampleEnv 0 "grading/peek" sampleCourse
            { sampleGrader with Role := UserRole.Owner })
          "No role found for request. All request structs require a minimum role.")) :=
  (courseUser_validate_no_role
    { sampleEnv with Auth := fun _ => (some { sampleGrader with Role := UserRole.Owner }, none) }
    0 sampleContext (.Pointer (.Struct [.CourseUserContext sampleContext, .Other "string"]))
    [.CourseUserContext sampleContext, .Other "string"] "grading/peek" sampleCourse
    { sampleGrader with Role := UserRole.Owner } (by decide) (by decide) (by decide)
    (by decide) rfl (Or.inr rfl) (by decide)).1

/-- C4 fails as stated: on a request struct with two context fields, of which the first
validates and the second does not, `ValidateAPIRequest` returns an error after the first
context was written back into the request with request id, endpoint, timestamp, course
and user filled in. -/
theorem validateAPIRequest_error_after_write :
    ∃ e first,
      ValidateAPIRequest sampleEnv 0 (.Pointer (.Struct twoContextFields)) "submission/peek" =
        some (.Pointer (.Struct [.CourseUserContext first,
          .AssignmentContext (sampleAssignmentContext "hw9"), .MinRoleOther false]), some e) ∧
      first.RequestID = "id-0" ∧ first.Endpoint = "submission/peek" ∧
      first.course = some sampleCourse ∧ first.user = some sampleGrader ∧
      e.isBadRequest = true ∧
      Value.Pointer (.Struct [.CourseUserContext first,
          .AssignmentContext (sampleAssignmentContext "hw9"), .MinRoleOther false]) ≠
        .Pointer (.Struct twoContextFields) :=
  ⟨((NewBadRequestError ⟨"id-1", "submission/peek", "t-1"⟩ "Could not find assignment.").Add
      "course-id" "course101").Add "assignment-id" "hw9",
    sampleContext.resolved sampleEnv 0 "submission/peek" sampleCourse sampleGrader,
    by decide, by decide, by decide, by decide, by decide, by decide, by decide⟩

/-- C4, amended: for a request whose struct has at most one context field (and for anything
that is not a pointer to a struct), if `ValidateAPIRequest` returns an error then the
request value is unchanged from before the call: nothing was written into it. -/
theorem validateAPIRequest_error_unchanged (env : Env) (n : Nat) (request : Value)
    (endpoint : String) (result : Value) (e : APIError)
    (hcount : contextFieldCount request ≤ 1)
    (h : ValidateAPIRequest env n request endpoint = some (result, some e)) :
    result = request := by
  unfold ValidateAPIRequest at h
  split at h
  · rename_i fields
    simp only [contextFieldCount] at hcount
    split at h
    · exact Option.noConfusion h
    · rename_i fields' found' apiErr hv
      have := validateFields_error_unchanged env endpoint fields n [] false fields' found'
        apiErr hcount hv
      simp only [Option.some.injEq, Prod.mk.injEq] at h
      rw [← h.1, this]
      simp
    · rename_i fields' hv
      have := validateFields_not_found env endpoint fields n [] fields' none hv
      simp only [Option.some.injEq, Prod.mk.injEq] at h
      rw [← h.1, this]
      simp
    · simp at h
  · exact Option.noConfusion h
  · exact Option.noConfusion h
  · simp only [Option.some.injEq, Prod.mk.injEq] at h
    exact h.1.symm

/-- C4, amended, at a concrete request: a request with one context field and no password
is rejected and left as it was. -/
theorem validateAPIRequest_error_unchanged_witness :
    ValidateAPIRequest sampleEnv 0 (.Pointer (.Struct missingPassFields)) "grading/peek" =
      some (.Pointer (.Struct missingPassFields),
        some (NewBadRequestError ⟨"id-0", "grading/peek", "t-0"⟩
          "No user password specified.")) ∧
    Value.Pointer (.Struct missingPassFields) = .Pointer (.Struct missingPassFields) :=
  ⟨by decide,
    validateAPIRequest_error_unchanged sampleEnv 0 (.Pointer (.Struct missingPassFields))
      "grading/peek" (.Pointer (.Struct missingPassFields))
      (NewBadRequestError ⟨"id-0", "grading/peek", "t-0"⟩ "No user password specified.")
      (by decide) (by decide)⟩

/-! ## Lemmas about maps and memory -/

theorem lookup_cons_eq {α : Type} (a : String) (b : α) (rest : List (String × α))
    (k : String) :
    ((a, b) :: rest).lookup k = if k = a then some b else rest.lookup k := by
  by_cases h : k = a
  · subst h
    simp [List.lookup]
  · have : (k == a) = false := by simpa using h
    simp [List.lookup, this, h]

theorem lookup_map_replace {α : Type} (m : List (String × α)) (key : String) (value : α)
    (k : String) :
    (m.map (fun kv => if kv.1 = key then (key, value) else kv)).lookup k =
      if k = key then (m.lookup key).map (fun _ => value) else m.lookup k := by
  induction m with
  | nil => simp
  | cons kv rest ih =>
    obtain ⟨a, b⟩ := kv
    rw [List.map_cons]
    by_cases ha : a = key
    · rw [if_pos ha]
      simp only [lookup_cons_eq, ih]
      subst ha
      by_cases hk : k = a
      · simp [hk]
      · simp [hk]
    · rw [if_neg ha]
      simp only [lookup_cons_eq, ih]
      by_cases hk : k = key
      · subst hk
        have h1 : ¬ k = a := fun h => ha h.symm
        simp [h1]
      · simp [hk]

theorem lookup_append_single {α : Type} (m : List (String × α)) (key : String) (value : α)
    (k : String) :
    (m ++ [(key, value)]).lookup k =
      match m.lookup k with
      | some v => some v
      | none => if k = key then some value else none := by
  induction m with
  | nil =>
    rw [List.nil_append, lookup_cons_eq]
    simp
  | cons kv rest ih =>
    obtain ⟨a, b⟩ := kv
    rw [List.cons_append, lookup_cons_eq, lookup_cons_eq, ih]
    by_cases hk : k = a
    · simp [hk]
    · simp [hk]

/-- Reading a map after `m[key] = value`. -/
theorem mapGet_mapSet {α : Type} (m : List (String × α)) (key : String) (value : α)
    (k : String) :
    mapGet (mapSet m key value) k = if k = key then some value else mapGet m k := by
  unfold mapGet mapSet
  cases hm : m.lookup key with
  | none =>
    simp only [Option.isSome_none, Bool.false_eq_true, if_false]
    rw [lookup_append_single]
    by_cases hk : k = key
    · subst hk
      simp [hm]
    · simp only [hk, if_false]
      cases m.lookup k <;> rfl
  | some v =>
    simp only [Option.isSome_some, if_true]
    rw [lookup_map_replace, hm]
    simp

theorem Heap.store_same (heap : Heap) (p : Ptr) (u : User) : heap.store p u p = u := by
  simp [Heap.store]

theorem Heap.store_other (heap : Heap) (p q : Ptr) (u : User) (h : q ≠ p) :
    heap.store p u q = heap q := by
  simp [Heap.store, h]

theorem lookup_map_key {α β : Type} (m : List (String × α)) (f : String → β) (k : String) :
    (m.map fun kv => (kv.1, f kv.1)).lookup k = (m.lookup k).map fun _ => f k := by
  induction m with
  | nil => rfl
  | cons kv rest ih =>
    obtain ⟨a, b⟩ := kv
    rw [List.map_cons]
    simp only [lookup_cons_eq, ih]
    by_cases hk : k = a
    · simp [hk]
    · simp [hk]

theorem lookup_map_value {α β : Type} (m : List (String × α)) (f : α → β) (k : String) :
    (m.map fun kv => (kv.1, f kv.2)).lookup k = (m.lookup k).map f := by
  induction m with
  | nil => rfl
  | cons kv rest ih =>
    obtain ⟨a, b⟩ := kv
    rw [List.map_cons]
    simp only [lookup_cons_eq, ih]
    by_cases hk : k = a
    · simp [hk]
    · simp [hk]

theorem mem_of_lookup {α : Type} (m : List (String × α)) (k : String) (v : α)
    (h : m.lookup k = some v) : (k, v) ∈ m := by
  induction m with
  | nil => simp at h
  | cons kv rest ih =>
    obtain ⟨a, b⟩ := kv
    rw [lookup_cons_eq] at h
    by_cases hk : k = a
    · rw [if_pos hk] at h
      cases h
      rw [hk]
      exact List.mem_cons_self _ _
    · rw [if_neg hk] at h
      exact List.mem_cons_of_mem _ (ih h)

/-- A roster in which every user is stored under its email, read by key. -/
theorem keyed_lookup (stored : List (String × User))
    (hkeyed : ∀ kv ∈ stored, kv.2.Email = kv.1) :
    ∀ k u, stored.lookup k = some u → u.Email = k :=
  fun k u h => hkeyed (k, u) (mem_of_lookup stored k u h)

/-! ## One iteration of the loop of `SyncNewUsers` -/

/-- What the password part of an iteration leaves alone: the roster, the three lists, every
user but the one behind `p`, the email of that one, and the plaintext passwords of all
other emails. -/
theorem resolvePassword_frame (env : SyncEnv) (s : SyncState) (p : Ptr) :
    (resolvePassword env s p).1.localUsers = s.localUsers ∧
    (resolvePassword env s p).1.syncResult.Add = s.syncResult.Add ∧
    (resolvePassword env s p).1.syncResult.Mod = s.syncResult.Mod ∧
    (resolvePassword env s p).1.syncResult.Skip = s.syncResult.Skip ∧
    (∀ q, q ≠ p → (resolvePassword env s p).1.heap q = s.heap q) ∧
    (∀ q, ((resolvePassword env s p).1.heap q).Email = (s.heap q).Email) ∧
    (∀ k, k ≠ (s.heap p).Email →
      mapGet (resolvePassword env s p).1.syncResult.ClearTextPasswords k =
        mapGet s.syncResult.ClearTextPasswords k) := by
  unfold resolvePassword
  simp only
  split
  · split
    · simp
    · refine ⟨rfl, rfl, rfl, rfl, ?_, ?_, ?_⟩
      · intro q hq
        exact Heap.store_other _ _ _ _ hq
      · intro q
        by_cases hq : q = p
        · subst hq
          simp [Heap.store_same]
        · simp [Heap.store_other _ _ _ _ hq]
      · intro k hk
        simp only [mapGet_mapSet, hk, if_false]
  · split
    · simp
    · refine ⟨rfl, rfl, rfl, rfl, ?_, ?_, ?_⟩
      · intro q hq
        exact Heap.store_other _ _ _ _ hq
      · intro q
        by_cases hq : q = p
        · subst hq
          simp [Heap.store_same]
        · simp [Heap.store_other _ _ _ _ hq]
      · intro k _
        rfl

/-- One iteration when `merge` is false: skip when the roster has the email, else resolve
the password and add the user. -/
theorem syncNewUser_noMerge (env : SyncEnv) (s : SyncState) (p : Ptr) :
    syncNewUser env false s p =
      match mapGet s.localUsers (s.heap p).Email with
      | some q =>
        ({ s with
          syncResult :=
            s.syncResult.AddResolveResult { Add := none, Mod := none, Skip := some q } }, none)
      | none =>
        match resolvePassword env s p with
        | (s', some err) => (s', some err)
        | (s', none) => (addNewUser s' p, none) := by
  unfold syncNewUser
  cases h : mapGet s.localUsers (s.heap p).Email with
  | some q => simp [h]
  | none =>
    simp only [h, Option.isSome_none, Bool.false_and, Bool.false_eq_true, if_false]

/-- What the new-user branch of an iteration does: it enters `p` in the roster under its
email, appends `p` to `Add`, and leaves alone the other lists, the plaintext passwords,
every user but the one behind `p`, and the email of that one. -/
theorem addNewUser_frame (s : SyncState) (p : Ptr) :
    (∀ k, mapGet (addNewUser s p).localUsers k =
      if k = (s.heap p).Email then some p else mapGet s.localUsers k) ∧
    (addNewUser s p).syncResult.Add = s.syncResult.Add ++ [p] ∧
    (addNewUser s p).syncResult.Mod = s.syncResult.Mod ∧
    (addNewUser s p).syncResult.Skip = s.syncResult.Skip ∧
    (addNewUser s p).syncResult.ClearTextPasswords = s.syncResult.ClearTextPasswords ∧
    (∀ q, q ≠ p → (addNewUser s p).heap q = s.heap q) ∧
    (∀ q, ((addNewUser s p).heap q).Email = (s.heap q).Email) := by
  have hemail : ∀ q, ((addNewUser s p).heap q).Email = (s.heap q).Email := by
    intro q
    simp only [addNewUser]
    split
    · by_cases hq : q = p
      · subst hq
        simp [Heap.store_same]
      · simp [Heap.store_other _ _ _ _ hq]
    · rfl
  refine ⟨?_, ?_, ?_, ?_, ?_, ?_, hemail⟩
  · intro k
    have := hemail p
    simp only [addNewUser] at this ⊢
    rw [mapGet_mapSet, this]
  · simp [addNewUser, UserSyncResult.AddResolveResult]
  · simp [addNewUser, UserSyncResult.AddResolveResult]
  · simp [addNewUser, UserSyncResult.AddResolveResult]
  · simp [addNewUser, UserSyncResult.AddResolveResult]
  · intro q hq
    simp only [addNewUser]
    split
    · exact Heap.store_other _ _ _ _ hq
    · rfl

/-- The plaintext passwords after the password part of an iteration that went through: one
is recorded for the user behind `p` when it came without a password, and every recorded
one was there before or was generated for that user. -/
theorem resolvePassword_clear (env : SyncEnv) (s : SyncState) (p : Ptr)
    (h : (resolvePassword env s p).2 = none) :
    ((s.heap p).Pass = "" →
      ∃ c, Generated env (s.heap p) c ∧
        mapGet (resolvePassword env s p).1.syncResult.ClearTextPasswords (s.heap p).Email =
          some c) ∧
    (∀ k c, mapGet (resolvePassword env s p).1.syncResult.ClearTextPasswords k = some c →
      mapGet s.syncResult.ClearTextPasswords k = some c ∨
      (k = (s.heap p).Email ∧ (s.heap p).Pass = "" ∧ Generated env (s.heap p) c)) := by
  unfold resolvePassword at h ⊢
  simp only at h ⊢
  by_cases hpass : (s.heap p).Pass = ""
  · simp only [hpass, if_true] at h ⊢
    cases hr : env.SetRandomPassword s.generated (s.heap p) with
    | error err => rw [hr] at h; simp at h
    | ok v =>
      obtain ⟨hash, clear⟩ := v
      simp only
      refine ⟨fun _ => ⟨clear, ⟨s.generated, hash, hr⟩, ?_⟩, ?_⟩
      · rw [mapGet_mapSet]
        simp
      · intro k c hk
        rw [mapGet_mapSet] at hk
        by_cases hke : k = (s.heap p).Email
        · rw [if_pos hke] at hk
          cases hk
          exact Or.inr ⟨hke, trivial, ⟨s.generated, hash, hr⟩⟩
        · rw [if_neg hke] at hk
          exact Or.inl hk
  · simp only [hpass, if_false] at h ⊢
    cases hr : env.SetPassword (s.heap p) (s.heap p).Pass with
    | error err => rw [hr] at h; simp at h
    | ok v =>
      simp only
      exact ⟨fun h => absurd h (by simp), fun k c hk => Or.inl hk⟩

/-- What the merge branch of an iteration does: it appends `q` to `Mod` when the merge
changed something, and leaves alone the roster, the other lists, the plaintext passwords,
every user but the one behind `q`, and every email. -/
theorem mergeUser_frame (env : SyncEnv) (s : SyncState) (q p : Ptr) :
    (mergeUser env s q p).localUsers = s.localUsers ∧
    (mergeUser env s q p).syncResult.Add = s.syncResult.Add ∧
    (mergeUser env s q p).syncResult.Skip = s.syncResult.Skip ∧
    (mergeUser env s q p).syncResult.Mod =
      (if (env.Merge (s.heap q) (s.heap p)).2 then s.syncResult.Mod ++ [q]
        else s.syncResult.Mod) ∧
    (mergeUser env s q p).syncResult.ClearTextPasswords = s.syncResult.ClearTextPasswords ∧
    (∀ x, x ≠ q → (mergeUser env s q p).heap x = s.heap x) ∧
    (∀ x, ((mergeUser env s q p).heap x).Email = (s.heap x).Email) := by
  have hemail : ∀ x, ((s.heap.store q
      { (env.Merge (s.heap q) (s.heap p)).1 with Email := (s.heap q).Email }) x).Email =
      (s.heap x).Email := by
    intro x
    by_cases hx : x = q
    · subst hx
      simp [Heap.store_same]
    · simp [Heap.store_other _ _ _ _ hx]
  unfold mergeUser
  cases hc : (env.Merge (s.heap q) (s.heap p)).2
  · simp only [hc, Bool.false_eq_true, if_false]
    exact ⟨trivial, trivial, trivial, trivial, trivial,
      fun x hx => Heap.store_other _ _ _ _ hx, hemail⟩
  · simp only [hc, if_true, UserSyncResult.AddResolveResult, Option.toList, List.append_nil]
    exact ⟨trivial, trivial, trivial, trivial, trivial,
      fun x hx => Heap.store_other _ _ _ _ hx, hemail⟩

/-- One iteration: skip when the roster has the email and `merge` is false; else resolve
the password, and add the user or merge it into the roster's. -/
theorem syncNewUser_eq (env : SyncEnv) (merge : Bool) (s : SyncState) (p : Ptr) :
    syncNewUser env merge s p =
      match mapGet s.localUsers (s.heap p).Email, merge with
      | some q, false =>
        ({ s with
          syncResult :=
            s.syncResult.AddResolveResult { Add := none, Mod := none, Skip := some q } }, none)
      | some q, true =>
        match resolvePassword env s p with
        | (s', some err) => (s', some err)
        | (s', none) => (mergeUser env s' q p, none)
      | none, _ =>
        match resolvePassword env s p with
        | (s', some err) => (s', some err)
        | (s', none) => (addNewUser s' p, none) := by
  unfold syncNewUser
  cases h : mapGet s.localUsers (s.heap p).Email with
  | some q =>
    cases merge
    · simp [h]
    · simp [h]
  | none => simp [h]

/-- The users of the three lists after one more user was appended to one of them. -/
theorem listed_perm (r r' : UserSyncResult) (a b c : List Ptr)
    (hs : r'.Skip = r.Skip ++ a) (ha : r'.Add = r.Add ++ b) (hm : r'.Mod = r.Mod ++ c) :
    (listed r').Perm ((a ++ b ++ c) ++ listed r) := by
  rw [List.perm_iff_count]
  intro x
  simp only [listed, hs, ha, hm, List.count_append]
  omega

/-! ## The loop of `SyncNewUsers` when `merge` is false -/

theorem skipInv_start (stored : List (String × User)) (objects : Nat → User) (e : String)
    (existing : User) (h : stored.lookup e = some existing) :
    SkipInv stored objects e (startState stored objects) where
  emails := fun _ => rfl
  loaded := fun _ => rfl
  entry := by
    simp only [startState, mapGet]
    rw [lookup_map_key, h]
    rfl
  candidates := fun _ _ => rfl
  noRoster := by
    intro id _ k hk
    simp only [startState, mapGet] at hk
    rw [lookup_map_key] at hk
    cases hl : stored.lookup k with
    | none => rw [hl] at hk; exact Option.noConfusion hk
    | some v =>
      rw [hl] at hk
      simp at hk
  noClear := rfl
  notAdded := fun _ _ h => by simp [startState, NewUserSyncResult] at h
  notSkipped := fun _ _ h => by simp [startState, NewUserSyncResult] at h
  noMod := rfl

theorem skipInv_resolvePassword (env : SyncEnv) (stored : List (String × User))
    (objects : Nat → User) (e : String) (s : SyncState) (i : Nat)
    (hinv : SkipInv stored objects e s) (he : (objects i).Email ≠ e) :
    SkipInv stored objects e (resolvePassword env s (.Incoming i)).1 := by
  obtain ⟨hl, ha, hm, hs, hheap, hemail, hclear⟩ := resolvePassword_frame env s (.Incoming i)
  have hcur : (s.heap (.Incoming i)).Email = (objects i).Email := hinv.emails _
  constructor
  · intro p
    rw [hemail, hinv.emails]
  · intro k
    rw [hheap _ (by simp), hinv.loaded]
  · rw [hl]
    exact hinv.entry
  · intro id hid
    have hne : id ≠ i := fun h => he (h ▸ hid)
    rw [hheap _ (by simpa using hne)]
    exact hinv.candidates id hid
  · intro id hid k
    rw [hl]
    exact hinv.noRoster id hid k
  · rw [hclear e (by rw [hcur]; exact fun h => he h.symm)]
    exact hinv.noClear
  · intro id hid
    rw [ha]
    exact hinv.notAdded id hid
  · intro id hid
    rw [hs]
    exact hinv.notSkipped id hid
  · rw [hm]
    exact hinv.noMod

theorem skipInv_addNewUser (stored : List (String × User))
    (objects : Nat → User) (e : String) (s : SyncState) (i : Nat)
    (hinv : SkipInv stored objects e s) (he : (objects i).Email ≠ e) :
    SkipInv stored objects e (addNewUser s (.Incoming i)) := by
  obtain ⟨hl, ha, hm, hs, hc, hheap, hemail⟩ := addNewUser_frame s (.Incoming i)
  have hcur : (s.heap (.Incoming i)).Email = (objects i).Email := hinv.emails _
  have hne : ∀ id, (objects id).Email = e → id ≠ i := fun id hid h => he (h ▸ hid)
  constructor
  · intro p
    rw [hemail, hinv.emails]
  · intro k
    rw [hheap _ (by simp), hinv.loaded]
  · rw [hl, hcur, if_neg (fun h => he h.symm)]
    exact hinv.entry
  · intro id hid
    rw [hheap _ (by simpa using hne id hid)]
    exact hinv.candidates id hid
  · intro id hid k
    rw [hl]
    split
    · simpa using fun h => hne id hid h.symm
    · exact hinv.noRoster id hid k
  · rw [hc]
    exact hinv.noClear
  · intro id hid
    rw [ha]
    simp only [List.mem_append, List.mem_singleton, not_or]
    exact ⟨hinv.notAdded id hid, by simpa using hne id hid⟩
  · intro id hid
    rw [hs]
    exact hinv.notSkipped id hid
  · rw [hm]
    exact hinv.noMod

/-- One iteration with `merge` false keeps the invariant and the skipped users so far, and
a user whose email is `e` is skipped with the loaded user of `e`. -/
theorem skipInv_step (env : SyncEnv) (stored : List (String × User))
    (objects : Nat → User) (e : String) (s : SyncState) (i : Nat)
    (hinv : SkipInv stored objects e s) :
    SkipInv stored objects e (syncNewUser env false s (.Incoming i)).1 ∧
    (∀ q ∈ s.syncResult.Skip, q ∈ (syncNewUser env false s (.Incoming i)).1.syncResult.Skip) ∧
    ((objects i).Email = e →
      (syncNewUser env false s (.Incoming i)).2 = none ∧
      Ptr.Loaded e ∈ (syncNewUser env false s (.Incoming i)).1.syncResult.Skip) := by
  have hcur : (s.heap (.Incoming i)).Email = (objects i).Email := hinv.emails _
  rw [syncNewUser_noMerge]
  cases hq : mapGet s.localUsers (s.heap (.Incoming i)).Email with
  | some q =>
    simp only [UserSyncResult.AddResolveResult, Option.toList, List.append_nil]
    refine ⟨?_, ?_, ?_⟩
    · constructor
      · exact hinv.emails
      · exact hinv.loaded
      · exact hinv.entry
      · exact hinv.candidates
      · exact hinv.noRoster
      · exact hinv.noClear
      · exact hinv.notAdded
      · intro id hid
        simp only [List.mem_append, List.mem_singleton, not_or]
        refine ⟨hinv.notSkipped id hid, ?_⟩
        intro h
        exact hinv.noRoster id hid _ (h ▸ hq)
      · exact hinv.noMod
    · intro q' hq'
      exact List.mem_append_left _ hq'
    · intro he
      rw [hcur, he, hinv.entry] at hq
      cases hq
      exact ⟨by first | rfl | trivial, List.mem_append_right _ (List.mem_singleton_self _)⟩
  | none =>
    have he : (objects i).Email ≠ e := by
      intro h
      rw [hcur, h, hinv.entry] at hq
      exact Option.noConfusion hq
    have h1 := skipInv_resolvePassword env stored objects e s i hinv he
    have hskip := (resolvePassword_frame env s (.Incoming i)).2.2.2.1
    rcases hr : resolvePassword env s (.Incoming i) with ⟨s', _ | err⟩
    · rw [hr] at h1 hskip
      simp only at h1 hskip ⊢
      refine ⟨skipInv_addNewUser stored objects e s' i h1 he, ?_, fun h => absurd h he⟩
      intro q hq'
      rw [(addNewUser_frame s' (.Incoming i)).2.2.2.1, hskip]
      exact hq'
    · rw [hr] at h1 hskip
      simp only at h1 hskip ⊢
      refine ⟨h1, ?_, fun h => absurd h he⟩
      intro q hq'
      rw [hskip]
      exact hq'

/-- The loop with `merge` false keeps the invariant and the skipped users so far; when it
runs through, every incoming user whose email is `e` has been skipped with the loaded user
of `e`. -/
theorem skipInv_loop (env : SyncEnv) (stored : List (String × User))
    (objects : Nat → User) (e : String) (newUsers : List (String × Nat)) :
    ∀ s, SkipInv stored objects e s →
      SkipInv stored objects e (syncLoop env false s (incomingPtrs newUsers)).1 ∧
      (∀ q ∈ s.syncResult.Skip,
        q ∈ (syncLoop env false s (incomingPtrs newUsers)).1.syncResult.Skip) ∧
      ((syncLoop env false s (incomingPtrs newUsers)).2 = none →
        ∀ kv ∈ newUsers, (objects kv.2).Email = e →
          Ptr.Loaded e ∈ (syncLoop env false s (incomingPtrs newUsers)).1.syncResult.Skip) := by
  induction newUsers with
  | nil =>
    intro s hinv
    simp only [incomingPtrs, List.map_nil, syncLoop]
    exact ⟨hinv, fun _ h => h, fun _ kv hkv => absurd hkv (List.not_mem_nil _)⟩
  | cons kv rest ih =>
    intro s hinv
    obtain ⟨h1, h2, h3⟩ := skipInv_step env stored objects e s kv.2 hinv
    simp only [incomingPtrs, List.map_cons, syncLoop]
    rcases hr : syncNewUser env false s (.Incoming kv.2) with ⟨s', _ | err⟩
    · rw [hr] at h1 h2 h3
      simp only at h1 h2 h3 ⊢
      obtain ⟨g1, g2, g3⟩ := ih s' h1
      refine ⟨g1, fun q hq => g2 q (h2 q hq), ?_⟩
      intro hnone kv' hkv' he
      rcases List.mem_cons.mp hkv' with h | h
      · subst h
        exact g2 _ (h3 he).2
      · exact g3 hnone kv' h he
    · rw [hr] at h1 h2 h3
      simp only at h1 h2 h3 ⊢
      refine ⟨h1, h2, ?_⟩
      intro h
      exact Option.noConfusion h

/-! ## The loop of `SyncNewUsers` on distinct emails -/

theorem syncInv_start (env : SyncEnv) (merge : Bool) (stored : List (String × User))
    (objects : Nat → User)
    (hkeyed : ∀ k u, stored.lookup k = some u → u.Email = k) :
    SyncInv env merge stored objects [] (startState stored objects) where
  emails := fun _ => rfl
  keyed := by
    intro k q hq
    simp only [startState, mapGet] at hq
    rw [lookup_map_key] at hq
    cases hl : stored.lookup k with
    | none => rw [hl] at hq; exact Option.noConfusion hq
    | some u =>
      rw [hl] at hq
      simp only [Option.map_some', Option.some.injEq] at hq
      subst hq
      simp only [initialHeap, hl, Option.getD_some]
      exact hkeyed k u hl
  dom := by
    intro k q hq
    simp only [startState, mapGet] at hq
    rw [lookup_map_key] at hq
    cases hl : stored.lookup k with
    | none => rw [hl] at hq; exact Option.noConfusion hq
    | some u => exact Or.inl rfl
  listedIn := fun p hp => by simp [startState, NewUserSyncResult, listed] at hp
  nodup := by simp [startState, NewUserSyncResult, listed, emailsOf]
  untouched := fun _ _ => rfl
  clearOnly := by
    intro k c h
    simp [startState, NewUserSyncResult, mapGet] at h
  clearSet := fun id hid => absurd hid (List.not_mem_nil _)
  served := fun id hid => absurd hid (List.not_mem_nil _)

/-- The invariant is carried over one visit of the object `id`, whose email `e` was not
visited before, by any change of state that writes only users with email `e`, enters at
most `id` in the roster (under `e`), lists at most one more user (with email `e`), and
records at most a generated plaintext for `e`. -/
theorem syncInv_extend (env : SyncEnv) (merge : Bool) (stored : List (String × User))
    (objects : Nat → User) (done : List Nat) (id : Nat) (s s' : SyncState)
    (hinv : SyncInv env merge stored objects done s)
    (hnew : (objects id).Email ∉ incomingEmails objects done)
    (hemail : ∀ p, (s'.heap p).Email = (s.heap p).Email)
    (hheap : ∀ x, (initialHeap stored objects x).Email ≠ (objects id).Email →
      s'.heap x = s.heap x)
    (hroster : ∀ k q, mapGet s'.localUsers k = some q →
      mapGet s.localUsers k = some q ∨ (k = (objects id).Email ∧ q = Ptr.Incoming id))
    (hlist : ∃ xs, (listed s'.syncResult).Perm (xs ++ listed s.syncResult) ∧
      (∀ x ∈ xs, (initialHeap stored objects x).Email = (objects id).Email) ∧ xs.length ≤ 1)
    (hskip : ∀ x ∈ s.syncResult.Skip, x ∈ s'.syncResult.Skip)
    (hclear1 : ∀ k c, mapGet s'.syncResult.ClearTextPasswords k = some c →
      mapGet s.syncResult.ClearTextPasswords k = some c ∨
      (k = (objects id).Email ∧ (objects id).Pass = "" ∧ Generated env (objects id) c))
    (hclear2 : ∀ k, k ≠ (objects id).Email →
      mapGet s'.syncResult.ClearTextPasswords k = mapGet s.syncResult.ClearTextPasswords k)
    (hclear3 : (objects id).Pass = "" →
      (objects id).Email ∈ emailsOf (initialHeap stored objects) s'.syncResult.Skip ∨
      ∃ c, Generated env (objects id) c ∧
        mapGet s'.syncResult.ClearTextPasswords (objects id).Email = some c)
    (hserved : (objects id).Email ∈
        emailsOf (initialHeap stored objects) (listed s'.syncResult) ∨
      (merge = true ∧ (stored.lookup (objects id).Email).isSome ∧
        MergedUnchanged env (objects id).Email)) :
    SyncInv env merge stored objects (done ++ [id]) s' := by
  obtain ⟨xs, hperm, hxs, hlen⟩ := hlist
  have hmono : ∀ k, k ∈ incomingEmails objects done →
      k ∈ incomingEmails objects (done ++ [id]) := by
    intro k hk
    simp only [incomingEmails, List.map_append, List.mem_append]
    exact Or.inl hk
  have hlast : (objects id).Email ∈ incomingEmails objects (done ++ [id]) := by
    simp [incomingEmails]
  have hlistedMono : ∀ k, k ∈ emailsOf (initialHeap stored objects) (listed s.syncResult) →
      k ∈ emailsOf (initialHeap stored objects) (listed s'.syncResult) := by
    intro k hk
    simp only [emailsOf, List.mem_map] at hk ⊢
    obtain ⟨x, hx, hxk⟩ := hk
    exact ⟨x, hperm.mem_iff.mpr (List.mem_append_right _ hx), hxk⟩
  constructor
  · intro p
    rw [hemail, hinv.emails]
  · intro k q hq
    rcases hroster k q hq with h | ⟨hk, hq'⟩
    · exact hinv.keyed k q h
    · rw [hk, hq']
      rfl
  · intro k q hq
    rcases hroster k q hq with h | ⟨hk, _⟩
    · rcases hinv.dom k q h with h' | h'
      · exact Or.inl h'
      · exact Or.inr (hmono k h')
    · rw [hk]
      exact Or.inr hlast
  · intro p hp
    rcases List.mem_append.mp (hperm.mem_iff.mp hp) with h | h
    · rw [hxs p h]
      exact hlast
    · exact hmono _ (hinv.listedIn p h)
  · have hp2 := hperm.map (fun p => (initialHeap stored objects p).Email)
    simp only [emailsOf]
    rw [hp2.nodup_iff, List.map_append, List.nodup_append]
    refine ⟨?_, hinv.nodup, ?_⟩
    · match xs, hlen with
      | [], _ => simp
      | [x], _ => simp
      | _ :: _ :: _, h => simp at h
    · intro k hk1 hk2
      simp only [List.mem_map] at hk1 hk2
      obtain ⟨x, hx, hxk⟩ := hk1
      obtain ⟨y, hy, hyk⟩ := hk2
      apply hnew
      rw [← hxs x hx, hxk, ← hyk]
      exact hinv.listedIn y hy
  · intro id' hid'
    have hne : (objects id').Email ≠ (objects id).Email := by
      intro h
      apply hid'
      rw [h]
      exact hlast
    rw [hheap (.Incoming id') hne]
    exact hinv.untouched id' (fun h => hid' (hmono _ h))
  · intro k c hk
    rcases hclear1 k c hk with h | ⟨h1, h2, h3⟩
    · obtain ⟨id', hid', h'⟩ := hinv.clearOnly k c h
      exact ⟨id', List.mem_append_left _ hid', h'⟩
    · exact ⟨id, List.mem_append_right _ (List.mem_singleton_self _), h1.symm, h2, h3⟩
  · intro id' hid' hpass
    rcases List.mem_append.mp hid' with h | h
    · have hne : (objects id').Email ≠ (objects id).Email := by
        intro heq
        apply hnew
        rw [← heq]
        simp only [incomingEmails, List.mem_map]
        exact ⟨id', h, rfl⟩
      rcases hinv.clearSet id' h hpass with h' | ⟨c, hc1, hc2⟩
      · left
        simp only [emailsOf, List.mem_map] at h' ⊢
        obtain ⟨x, hx, hxk⟩ := h'
        exact ⟨x, hskip x hx, hxk⟩
      · right
        exact ⟨c, hc1, by rw [hclear2 _ hne]; exact hc2⟩
    · rw [List.mem_singleton.mp h]
      exact hclear3 (by rw [← List.mem_singleton.mp h]; exact hpass)
  · intro id' hid'
    rcases List.mem_append.mp hid' with h | h
    · rcases hinv.served id' h with h' | h'
      · exact Or.inl (hlistedMono _ h')
      · exact Or.inr h'
    · rw [List.mem_singleton.mp h]
      exact hserved

/-- One iteration that goes through carries the invariant over to the visited object. -/
theorem syncInv_step (env : SyncEnv) (merge : Bool) (stored : List (String × User))
    (objects : Nat → User) (done : List Nat) (id : Nat) (s : SyncState)
    (hinv : SyncInv env merge stored objects done s)
    (hnew : (objects id).Email ∉ incomingEmails objects done)
    (hok : (syncNewUser env merge s (.Incoming id)).2 = none) :
    SyncInv env merge stored objects (done ++ [id])
      (syncNewUser env merge s (.Incoming id)).1 := by
  have hcur : s.heap (.Incoming id) = objects id := hinv.untouched id hnew
  have hp0 : (initialHeap stored objects (.Incoming id)).Email = (objects id).Email := rfl
  obtain ⟨fl, fa, fm, fs, fheap, femail, fclear⟩ := resolvePassword_frame env s (.Incoming id)
  rw [hcur] at fclear
  rw [syncNewUser_eq] at hok ⊢
  rw [hcur] at hok ⊢
  cases hq : mapGet s.localUsers (objects id).Email with
  | some q =>
    have hq0 : (initialHeap stored objects q).Email = (objects id).Email := hinv.keyed _ q hq
    cases merge with
    | false =>
      simp only
      apply syncInv_extend env false stored objects done id s _ hinv hnew
      · intro p; rfl
      · intro x _; rfl
      · intro k q' h; exact Or.inl h
      · refine ⟨[q], ?_, ?_, by simp⟩
        · have := listed_perm s.syncResult
            (s.syncResult.AddResolveResult { Add := none, Mod := none, Skip := some q })
            [q] [] [] (by simp [UserSyncResult.AddResolveResult])
            (by simp [UserSyncResult.AddResolveResult])
            (by simp [UserSyncResult.AddResolveResult])
          simpa using this
        · intro x hx
          rw [List.mem_singleton.mp hx]
          exact hq0
      · intro x hx
        simp only [UserSyncResult.AddResolveResult, Option.toList]
        exact List.mem_append_left _ hx
      · intro k c h; exact Or.inl h
      · intro k _; rfl
      · intro _
        left
        simp only [emailsOf, UserSyncResult.AddResolveResult, Option.toList, List.mem_map]
        exact ⟨q, List.mem_append_right _ (List.mem_singleton_self _), hq0⟩
      · left
        simp only [emailsOf, listed, UserSyncResult.AddResolveResult, Option.toList,
          List.mem_map]
        exact ⟨q, by simp, hq0⟩
    | true =>
      rw [hq] at hok
      simp only at hok ⊢
      have hclear := resolvePassword_clear env s (.Incoming id)
      rcases hr : resolvePassword env s (.Incoming id) with ⟨s1, _ | err⟩
      · rw [hr] at fl fa fm fs fheap femail fclear hclear
        simp only at fl fa fm fs fheap femail fclear hclear ⊢
        rw [hcur] at hclear
        obtain ⟨hc1, hc2⟩ := hclear trivial
        obtain ⟨ml, ma, ms, mm, mc, mheap, memail⟩ := mergeUser_frame env s1 q (.Incoming id)
        apply syncInv_extend env true stored objects done id s _ hinv hnew
        · intro p
          rw [memail, femail]
        · intro x hx
          have hxq : x ≠ q := fun h => hx (h ▸ hq0)
          have hxp : x ≠ .Incoming id := fun h => hx (h ▸ hp0)
          rw [mheap x hxq, fheap x hxp]
        · intro k q' h
          rw [ml, fl] at h
          exact Or.inl h
        · cases hch : (env.Merge (s1.heap q) (s1.heap (.Incoming id))).2
          · refine ⟨[], ?_, by simp, by simp⟩
            have := listed_perm s.syncResult (mergeUser env s1 q (.Incoming id)).syncResult
              [] [] [] (by rw [ms, fs]; simp) (by rw [ma, fa]; simp)
              (by rw [mm, hch, fm]; simp)
            simpa using this
          · refine ⟨[q], ?_, ?_, by simp⟩
            · have := listed_perm s.syncResult (mergeUser env s1 q (.Incoming id)).syncResult
                [] [] [q] (by rw [ms, fs]; simp) (by rw [ma, fa]; simp)
                (by rw [mm, hch, fm]; simp)
              simpa using this
            · intro x hx
              rw [List.mem_singleton.mp hx]
              exact hq0
        · intro x hx
          rw [ms, fs]
          exact hx
        · intro k c h
          rw [mc] at h
          exact hc2 k c h
        · intro k hk
          rw [mc, fclear k hk]
        · intro hpass
          right
          rw [mc]
          exact hc1 hpass
        · cases hch : (env.Merge (s1.heap q) (s1.heap (.Incoming id))).2
          · right
            refine ⟨rfl, ?_, s1.heap q, s1.heap (.Incoming id), ?_, ?_, hch⟩
            · rcases hinv.dom _ q hq with h | h
              · exact h
              · exact absurd h hnew
            · rw [femail, hinv.emails, hq0]
            · rw [femail, hinv.emails]
              exact hp0
          · left
            simp only [emailsOf, listed, List.mem_map]
            refine ⟨q, ?_, hq0⟩
            rw [mm, hch]
            simp
      · rw [hr] at hok
        simp at hok
  | none =>
    rw [hq] at hok
    simp only at hok ⊢
    have hclear := resolvePassword_clear env s (.Incoming id)
    rcases hr : resolvePassword env s (.Incoming id) with ⟨s1, _ | err⟩
    · rw [hr] at fl fa fm fs fheap femail fclear hclear
      simp only at fl fa fm fs fheap femail fclear hclear ⊢
      rw [hcur] at hclear
      obtain ⟨hc1, hc2⟩ := hclear trivial
      obtain ⟨al, aa, am, as, ac, aheap, aemail⟩ := addNewUser_frame s1 (.Incoming id)
      have he1 : (s1.heap (.Incoming id)).Email = (objects id).Email := by
        rw [femail, hcur]
      apply syncInv_extend env merge stored objects done id s _ hinv hnew
      · intro p
        rw [aemail, femail]
      · intro x hx
        have hxp : x ≠ .Incoming id := fun h => hx (h ▸ hp0)
        rw [aheap x hxp, fheap x hxp]
      · intro k q' h
        rw [al, he1] at h
        by_cases hk : k = (objects id).Email
        · rw [if_pos hk] at h
          cases h
          exact Or.inr ⟨hk, rfl⟩
        · rw [if_neg hk, fl] at h
          exact Or.inl h
      · refine ⟨[.Incoming id], ?_, ?_, by simp⟩
        · have := listed_perm s.syncResult (addNewUser s1 (.Incoming id)).syncResult
            [] [.Incoming id] [] (by rw [as, fs]; simp) (by rw [aa, fa])
            (by rw [am, fm]; simp)
          simpa using this
        · intro x hx
          rw [List.mem_singleton.mp hx]
          exact hp0
      · intro x hx
        rw [as, fs]
        exact hx
      · intro k c h
        rw [ac] at h
        exact hc2 k c h
      · intro k hk
        rw [ac, fclear k hk]
      · intro hpass
        right
        rw [ac]
        exact hc1 hpass
      · left
        simp only [emailsOf, listed, List.mem_map]
        refine ⟨.Incoming id, ?_, rfl⟩
        rw [aa]
        simp
    · rw [hr] at hok
      simp at hok

/-- A loop that runs through carries the invariant over to all the objects it visits, when
their emails are pairwise distinct and were not visited before. -/
theorem syncInv_loop (env : SyncEnv) (merge : Bool) (stored : List (String × User))
    (objects : Nat → User) (todo : List (String × Nat)) :
    ∀ (done : List Nat) (s : SyncState),
      SyncInv env merge stored objects done s →
      (incomingEmails objects (done ++ todo.map fun kv => kv.2)).Nodup →
      (syncLoop env merge s (incomingPtrs todo)).2 = none →
      SyncInv env merge stored objects (done ++ todo.map fun kv => kv.2)
        (syncLoop env merge s (incomingPtrs todo)).1 := by
  induction todo with
  | nil =>
    intro done s hinv _ _
    simpa [incomingPtrs, syncLoop] using hinv
  | cons kv rest ih =>
    intro done s hinv hnodup hok
    have hsplit : done ++ (kv :: rest).map (fun kv => kv.2) =
        (done ++ [kv.2]) ++ rest.map fun kv => kv.2 := by simp
    have hnew : (objects kv.2).Email ∉ incomingEmails objects done := by
      simp only [incomingEmails, List.map_append, List.map_cons] at hnodup
      have := (List.nodup_append.mp hnodup).2.2
      intro h
      exact this h (List.mem_cons_self _ _)
    simp only [incomingPtrs, List.map_cons, syncLoop] at hok ⊢
    rcases hr : syncNewUser env merge s (.Incoming kv.2) with ⟨s', _ | err⟩
    · rw [hr] at hok
      simp only at hok ⊢
      have hstep := syncInv_step env merge stored objects done kv.2 s hinv hnew
        (by rw [hr])
      rw [hr] at hstep
      have := ih (done ++ [kv.2]) s' hstep (by rw [← hsplit]; exact hnodup) hok
      simpa using this
    · rw [hr] at hok
      simp at hok

/-- What a call that returns a result went through: the roster loaded, the loop ran through,
the result is the `syncResult` of the loop, and without `dryRun` the roster of the loop
was saved without error and the notification loops ran when `sendEmails` is set. -/
theorem syncNewUsers_result (env : SyncEnv) (objects : Nat → User)
    (newUsers : List (String × Nat)) (merge dryRun sendEmails : Bool)
    (stored : List (String × User)) (r : UserSyncResult)
    (hg : env.GetUsers = .ok stored)
    (hr : (SyncNewUsers env objects newUsers merge dryRun sendEmails).result = some r) :
    ∃ s, syncLoop env merge (startState stored objects) (incomingPtrs newUsers) = (s, none) ∧
      r = s.syncResult ∧
      (SyncNewUsers env objects newUsers merge dryRun sendEmails).heap = s.heap ∧
      (dryRun = false →
        env.SaveUsers (rosterOf s) = none ∧
        (SyncNewUsers env objects newUsers merge dryRun sendEmails).saved =
          some (rosterOf s) ∧
        (sendEmails = true →
          (SyncNewUsers env objects newUsers merge dryRun sendEmails).emails =
            notifyAdded s.heap s.syncResult false (decide (newUsers.length > 1)) ++
            notifyModified s.heap s.syncResult false (decide (newUsers.length > 1)))) := by
  unfold SyncNewUsers at hr ⊢
  simp only [hg] at hr ⊢
  rcases hl : syncLoop env merge (startState stored objects) (incomingPtrs newUsers) with
    ⟨s, _ | err⟩
  · rw [hl] at hr
    simp only at hr ⊢
    refine ⟨s, rfl, ?_⟩
    cases dryRun with
    | true =>
      simp only [if_true] at hr ⊢
      cases hr
      exact ⟨rfl, trivial, fun h => Bool.noConfusion h⟩
    | false =>
      simp only [Bool.false_eq_true, if_false] at hr ⊢
      cases hsave : env.SaveUsers (rosterOf s) with
      | some err =>
        rw [hsave] at hr
        exact Option.noConfusion hr
      | none =>
        rw [hsave] at hr
        simp only at hr ⊢
        cases hr
        refine ⟨rfl, trivial, fun _ => ⟨trivial, trivial, ?_⟩⟩
        intro hsend
        simp [hsend]
  · rw [hl] at hr
    exact Option.noConfusion hr

/-! ## The notification loops -/

/-- A list without duplicates that is made of three parts: each part has no duplicate and
no element is in two parts. -/
theorem nodup_three {α : Type} (l1 l2 l3 : List α) (h : (l1 ++ l2 ++ l3).Nodup) :
    l1.Nodup ∧ l2.Nodup ∧ l3.Nodup ∧ (∀ x ∈ l1, x ∉ l2) ∧ (∀ x ∈ l1, x ∉ l3) ∧
      (∀ x ∈ l2, x ∉ l3) := by
  obtain ⟨h12, h3, hd⟩ := List.nodup_append.mp h
  obtain ⟨h1, h2, hd'⟩ := List.nodup_append.mp h12
  refine ⟨h1, h2, h3, ?_, ?_, ?_⟩
  · intro x hx hx'
    exact hd' hx hx'
  · intro x hx hx'
    exact hd (List.mem_append_left _ hx) hx'
  · intro x hx hx'
    exact hd (List.mem_append_right _ hx) hx'

/-- The users the first notification loop calls `SendUserAddEmail` for: those of `Add`, in
order. -/
theorem notifyAdded_users (heap : Heap) (r : UserSyncResult) (dryRun sleep : Bool) :
    (notifyAdded heap r dryRun sleep).map (fun c => c.user) = r.Add := by
  simp [notifyAdded, List.map_map, Function.comp_def]

/-- The users the second notification loop calls `SendUserAddEmail` for: those of `Mod`
whose email has a non-empty plaintext password in the map, in order. -/
theorem notifyModified_users (heap : Heap) (r : UserSyncResult) (dryRun sleep : Bool) :
    (notifyModified heap r dryRun sleep).map (fun c => c.user) =
      r.Mod.filter fun p =>
        decide ((mapGet r.ClearTextPasswords (heap p).Email).getD "" ≠ "") := by
  unfold notifyModified
  induction r.Mod with
  | nil => rfl
  | cons p rest ih =>
    by_cases h : (mapGet r.ClearTextPasswords (heap p).Email).getD "" = ""
    · rw [List.filterMap_cons, List.filter_cons]
      simp only [h, if_true, ne_eq, not_true_eq_false, decide_False, Bool.false_eq_true,
        if_false]
      exact ih
    · rw [List.filterMap_cons, List.filter_cons]
      simp only [h, if_false, ne_eq, not_false_eq_true, decide_True, if_true, List.map_cons]
      rw [ih]

/-! ## Claims about `SyncNewUsers` -/

/-- C8: with `dryRun` true, for every roster, every collection of incoming users and every
`merge` and `sendEmails`, `SyncNewUsers` calls neither `SaveUsers` nor
`SendUserAddEmail`, and when the roster loads and the loop runs through it returns the
`syncResult` the loop computed, without an error; that is the result the same call
returns with `dryRun` false whenever that call returns one. -/
theorem syncNewUsers_dryRun (env : SyncEnv) (objects : Nat → User)
    (newUsers : List (String × Nat)) (merge sendEmails : Bool) :
    (SyncNewUsers env objects newUsers merge true sendEmails).saved = none ∧
    (SyncNewUsers env objects newUsers merge true sendEmails).emails = [] ∧
    (∀ stored s, env.GetUsers = .ok stored →
      syncLoop env merge (startState stored objects) (incomingPtrs newUsers) = (s, none) →
      (SyncNewUsers env objects newUsers merge true sendEmails).result = some s.syncResult ∧
      (SyncNewUsers env objects newUsers merge true sendEmails).err = none) ∧
    (∀ r, (SyncNewUsers env objects newUsers merge false sendEmails).result = some r →
      (SyncNewUsers env objects newUsers merge true sendEmails).result = some r) := by
  unfold SyncNewUsers
  cases hg : env.GetUsers with
  | error err => simp
  | ok stored =>
    simp only
    cases hl : syncLoop env merge (startState stored objects) (incomingPtrs newUsers) with
    | mk s oerr =>
      cases oerr with
      | some err =>
        simp only [true_and]
        refine ⟨?_, ?_⟩
        · intro stored' s' hs hl'
          cases hs
          rw [hl] at hl'
          simp at hl'
        · intro r hr
          simp at hr
      | none =>
        simp only [if_true, Bool.false_eq_true, if_false]
        refine ⟨trivial, trivial, ?_, ?_⟩
        · intro stored' s' hs hl'
          cases hs
          rw [hl] at hl'
          simp only [Prod.mk.injEq] at hl'
          rw [hl'.1]
          exact ⟨rfl, trivial⟩
        · intro r hr
          cases hsave : env.SaveUsers (rosterOf s) with
          | some err => simp [hsave] at hr
          | none =>
            simp only [hsave] at hr
            exact hr

/-- C8, at a concrete call: a dry run that adds `b@x.com` and merges into `a@x.com` saves
nothing, sends nothing and returns the classification. -/
theorem syncNewUsers_dryRun_witness :
    (SyncNewUsers (sampleSyncEnv sampleStored) sampleObjects [("a@x.com", 0), ("b@x.com", 1)]
      true true true).result =
      some { Add := [.Incoming 1], Mod := [.Loaded "a@x.com"], Skip := [],
             ClearTextPasswords := [("a@x.com", "pw-0"), ("b@x.com", "pw-1")] } :=
  ((syncNewUsers_dryRun (sampleSyncEnv sampleStored) sampleObjects
    [("a@x.com", 0), ("b@x.com", 1)] true true).2.2.1 sampleStored _ rfl rfl).1

/-- C7: with `merge` false, for every roster, every collection of incoming users and every
`dryRun` and `sendEmails`, an incoming user (object `id`) whose email is in the loaded
roster with user `existing` is skipped: a returned result has the loaded user of that
email in `Skip` and the candidate in none of `Skip` and `Add` (and `Mod` is empty), it
records no plaintext password for that email, the candidate is left exactly as it came
(no password was generated or set for it), the loaded user is still `existing`, and the
roster handed to `SaveUsers` has `existing` under that email. -/
theorem syncNewUsers_noMerge_skips (env : SyncEnv) (objects : Nat → User)
    (newUsers : List (String × Nat)) (dryRun sendEmails : Bool)
    (stored : List (String × User)) (key : String) (id : Nat) (existing : User)
    (hg : env.GetUsers = .ok stored)
    (hmem : (key, id) ∈ newUsers)
    (hex : stored.lookup (objects id).Email = some existing) :
    (∀ r, (SyncNewUsers env objects newUsers false dryRun sendEmails).result = some r →
      Ptr.Loaded (objects id).Email ∈ r.Skip ∧ Ptr.Incoming id ∉ r.Skip ∧
      Ptr.Incoming id ∉ r.Add ∧ r.Mod = [] ∧
      mapGet r.ClearTextPasswords (objects id).Email = none) ∧
    (SyncNewUsers env objects newUsers false dryRun sendEmails).heap
      (.Loaded (objects id).Email) = existing ∧
    (SyncNewUsers env objects newUsers false dryRun sendEmails).heap (.Incoming id) =
      objects id ∧
    (∀ roster, (SyncNewUsers env objects newUsers false dryRun sendEmails).saved = some roster →
      roster.lookup (objects id).Email = some existing) := by
  obtain ⟨hinv, _, hskip⟩ := skipInv_loop env stored objects (objects id).Email newUsers
    (startState stored objects) (skipInv_start stored objects _ existing hex)
  have hloaded : ∀ s, SkipInv stored objects (objects id).Email s →
      s.heap (.Loaded (objects id).Email) = existing := by
    intro s hs
    rw [hs.loaded]
    simp [initialHeap, hex]
  have hroster : ∀ s, SkipInv stored objects (objects id).Email s →
      (rosterOf s).lookup (objects id).Email = some existing := by
    intro s hs
    have h1 := hs.entry
    simp only [mapGet] at h1
    simp only [rosterOf]
    rw [lookup_map_value, h1, Option.map_some', hloaded s hs]
  have hres : ∀ s, SkipInv stored objects (objects id).Email s →
      Ptr.Loaded (objects id).Email ∈ s.syncResult.Skip →
      Ptr.Loaded (objects id).Email ∈ s.syncResult.Skip ∧
      Ptr.Incoming id ∉ s.syncResult.Skip ∧ Ptr.Incoming id ∉ s.syncResult.Add ∧
      s.syncResult.Mod = [] ∧
      mapGet s.syncResult.ClearTextPasswords (objects id).Email = none :=
    fun s hs h => ⟨h, hs.notSkipped id rfl, hs.notAdded id rfl, hs.noMod, hs.noClear⟩
  unfold SyncNewUsers
  simp only [hg]
  rcases hl : syncLoop env false (startState stored objects) (incomingPtrs newUsers) with
    ⟨s, _ | err⟩
  · rw [hl] at hinv hskip
    simp only at hinv hskip
    have hin := hskip trivial (key, id) hmem rfl
    cases dryRun with
    | true =>
      simp only [if_true]
      refine ⟨?_, hloaded s hinv, hinv.candidates id rfl, ?_⟩
      · intro r hr
        cases hr
        exact hres s hinv hin
      · intro roster hr
        exact Option.noConfusion hr
    | false =>
      simp only [Bool.false_eq_true, if_false]
      cases hsave : env.SaveUsers (rosterOf s) with
      | some err =>
        simp only
        refine ⟨?_, hloaded s hinv, hinv.candidates id rfl, ?_⟩
        · intro r hr
          exact Option.noConfusion hr
        · intro roster hr
          cases hr
          exact hroster s hinv
      | none =>
        simp only
        refine ⟨?_, hloaded s hinv, hinv.candidates id rfl, ?_⟩
        · intro r hr
          cases hr
          exact hres s hinv hin
        · intro roster hr
          cases hr
          exact hroster s hinv
  · rw [hl] at hinv
    simp only at hinv ⊢
    refine ⟨?_, hloaded s hinv, hinv.candidates id rfl, ?_⟩
    · intro r hr
      exact Option.noConfusion hr
    · intro roster hr
      exact Option.noConfusion hr

/-- C7, at a concrete call: against the roster with the student `a@x.com`, the incoming
grader `a@x.com` is skipped with `merge` false while `b@x.com` is added; the loaded user
is in `Skip`, the candidate is as it came, and the saved roster still has the student. -/
theorem syncNewUsers_noMerge_skips_witness :
    (Ptr.Loaded "a@x.com" ∈ sampleSkipResult.Skip ∧ Ptr.Incoming 0 ∉ sampleSkipResult.Skip ∧
      Ptr.Incoming 0 ∉ sampleSkipResult.Add ∧ sampleSkipResult.Mod = [] ∧
      mapGet sampleSkipResult.ClearTextPasswords "a@x.com" = none) ∧
    (SyncNewUsers (sampleSyncEnv sampleStored) sampleObjects [("a@x.com", 0), ("b@x.com", 1)]
      false false true).heap (.Loaded "a@x.com") = sampleStudent ∧
    (SyncNewUsers (sampleSyncEnv sampleStored) sampleObjects [("a@x.com", 0), ("b@x.com", 1)]
      false false true).heap (.Incoming 0) = sampleUser "a@x.com" UserRole.Grader "" ∧
    (SyncNewUsers (sampleSyncEnv sampleStored) sampleObjects [("a@x.com", 0), ("b@x.com", 1)]
      false false true).result = some sampleSkipResult :=
  ⟨(syncNewUsers_noMerge_skips (sampleSyncEnv sampleStored) sampleObjects
      [("a@x.com", 0), ("b@x.com", 1)] false true sampleStored "a@x.com" 0 sampleStudent rfl
      (by decide) (by decide)).1 sampleSkipResult rfl,
    (syncNewUsers_noMerge_skips (sampleSyncEnv sampleStored) sampleObjects
      [("a@x.com", 0), ("b@x.com", 1)] false true sampleStored "a@x.com" 0 sampleStudent rfl
      (by decide) (by decide)).2.1,
    (syncNewUsers_noMerge_skips (sampleSyncEnv sampleStored) sampleObjects
      [("a@x.com", 0), ("b@x.com", 1)] false true sampleStored "a@x.com" 0 sampleStudent rfl
      (by decide) (by decide)).2.2.1,
    by decide⟩

/-- C9 fails as stated: when two entries of the incoming map hold users with the same email
(here under the keys `b@x.com` and `B@x.com`), the first is added and the second is merged
into it, so with `merge` true that email is in `Add` and in `Mod`. -/
theorem syncNewUsers_added_and_modified :
    (SyncNewUsers (sampleSyncEnv sampleStored) sampleObjects twiceB true false false).result =
      some twiceBResult ∧
    "b@x.com" ∈ emailsOf
      (SyncNewUsers (sampleSyncEnv sampleStored) sampleObjects twiceB true false false).heap
      twiceBResult.Add ∧
    "b@x.com" ∈ emailsOf
      (SyncNewUsers (sampleSyncEnv sampleStored) sampleObjects twiceB true false false).heap
      twiceBResult.Mod := by
  refine ⟨by decide, by decide, by decide⟩

/-- Why the amended C9 asks for a roster keyed by email: when the users file holds the user
`b@x.com` under the key `a@x.com`, then with `merge` false the incoming `a@x.com` is
skipped with that user and the incoming `b@x.com` is added, so the email `b@x.com` is in
`Skip` and in `Add` although the incoming emails are distinct. -/
theorem syncNewUsers_misfiled_roster :
    (SyncNewUsers (sampleSyncEnv [("a@x.com", sampleUser "b@x.com" UserRole.Student "hash")])
      sampleObjects sampleNewUsers false true false).result =
      some { Add := [.Incoming 1], Mod := [], Skip := [.Loaded "a@x.com"],
             ClearTextPasswords := [("b@x.com", "pw-0")] } ∧
    ((SyncNewUsers (sampleSyncEnv [("a@x.com", sampleUser "b@x.com" UserRole.Student "hash")])
      sampleObjects sampleNewUsers false true false).heap (.Loaded "a@x.com")).Email =
      "b@x.com" ∧
    ((SyncNewUsers (sampleSyncEnv [("a@x.com", sampleUser "b@x.com" UserRole.Student "hash")])
      sampleObjects sampleNewUsers false true false).heap (.Incoming 1)).Email =
      "b@x.com" := by
  refine ⟨by decide, by decide, by decide⟩

/-- C9, amended: when the emails of the incoming users are pairwise distinct and every user
of the loaded roster is stored under its email, a returned result lists no email twice:
the emails of `Skip`, `Add` and `Mod` together have no duplicate, so the three lists are
pairwise disjoint by email; every listed email is an incoming one; and an incoming email
that is in none of the lists belongs to a loaded user into which an allowed merge
(`merge` true) changed nothing. -/
theorem syncNewUsers_partition (env : SyncEnv) (objects : Nat → User)
    (newUsers : List (String × Nat)) (merge dryRun sendEmails : Bool)
    (stored : List (String × User)) (r : UserSyncResult)
    (hg : env.GetUsers = .ok stored)
    (hkeyed : ∀ kv ∈ stored, kv.2.Email = kv.1)
    (hdistinct : (incomingEmails objects (newUsers.map fun kv => kv.2)).Nodup)
    (hr : (SyncNewUsers env objects newUsers merge dryRun sendEmails).result = some r) :
    (emailsOf (SyncNewUsers env objects newUsers merge dryRun sendEmails).heap
      (r.Skip ++ r.Add ++ r.Mod)).Nodup ∧
    (∀ e, e ∈ emailsOf (SyncNewUsers env objects newUsers merge dryRun sendEmails).heap r.Skip →
      e ∉ emailsOf (SyncNewUsers env objects newUsers merge dryRun sendEmails).heap r.Add ∧
      e ∉ emailsOf (SyncNewUsers env objects newUsers merge dryRun sendEmails).heap r.Mod) ∧
    (∀ e, e ∈ emailsOf (SyncNewUsers env objects newUsers merge dryRun sendEmails).heap r.Add →
      e ∉ emailsOf (SyncNewUsers env objects newUsers merge dryRun sendEmails).heap r.Mod) ∧
    (∀ e, e ∈ emailsOf (SyncNewUsers env objects newUsers merge dryRun sendEmails).heap
        (r.Skip ++ r.Add ++ r.Mod) →
      e ∈ incomingEmails objects (newUsers.map fun kv => kv.2)) ∧
    (∀ kv ∈ newUsers,
      (objects kv.2).Email ∉
        emailsOf (SyncNewUsers env objects newUsers merge dryRun sendEmails).heap
          (r.Skip ++ r.Add ++ r.Mod) →
      merge = true ∧ (stored.lookup (objects kv.2).Email).isSome ∧
        MergedUnchanged env (objects kv.2).Email) := by
  obtain ⟨s, hl, hrs, hheap, _⟩ :=
    syncNewUsers_result env objects newUsers merge dryRun sendEmails stored r hg hr
  have hinv := syncInv_loop env merge stored objects newUsers [] (startState stored objects)
    (syncInv_start env merge stored objects (keyed_lookup stored hkeyed))
    (by simpa using hdistinct)
    (by rw [hl])
  rw [hl] at hinv
  simp only [List.nil_append] at hinv
  have hemails : ∀ ps, emailsOf (SyncNewUsers env objects newUsers merge dryRun sendEmails).heap
      ps = emailsOf (initialHeap stored objects) ps := by
    intro ps
    simp only [emailsOf, hheap]
    exact List.map_congr_left fun p _ => hinv.emails p
  simp only [hemails]
  rw [hrs]
  have hnodupE := hinv.nodup
  simp only [emailsOf, listed, List.map_append] at hnodupE
  obtain ⟨_, _, _, eSA, eSM, eAM⟩ := nodup_three _ _ _ hnodupE
  refine ⟨hinv.nodup, fun e he => ⟨eSA e he, eSM e he⟩, eAM, ?_, ?_⟩
  · intro e he
    simp only [emailsOf, List.mem_map] at he
    obtain ⟨p, hp, hpe⟩ := he
    rw [← hpe]
    exact hinv.listedIn p hp
  · intro kv hkv hnot
    rcases hinv.served kv.2 (List.mem_map.mpr ⟨kv, hkv, rfl⟩) with h | h
    · exact absurd h hnot
    · exact h

/-- C9, amended, at a concrete call: merging `a@x.com` and `b@x.com` into the sample roster
lists each email once. -/
theorem syncNewUsers_partition_witness :
    (emailsOf
      (SyncNewUsers (sampleSyncEnv sampleStored) sampleObjects sampleNewUsers true false
        false).heap
      (sampleMergeResult.Skip ++ sampleMergeResult.Add ++ sampleMergeResult.Mod)).Nodup :=
  (syncNewUsers_partition (sampleSyncEnv sampleStored) sampleObjects sampleNewUsers true false
    false sampleStored sampleMergeResult rfl (by decide) (by decide) (by decide)).1

/-- C10 fails as stated: when two entries of the incoming map hold users with the same
email, the first without a password and the second with the hash `hash-b`, the second is
merged into the first, and the notification step is invoked for that modified user with
the plaintext generated for the first entry, although the candidate that modified it
supplied a password (which is the one now stored). -/
theorem syncNewUsers_notifies_supplied_password :
    (SyncNewUsers (sampleSyncEnv sampleStored) sampleObjects twiceB true false true).result =
      some twiceBResult ∧
    (sampleObjects 2).Pass = "hash-b" ∧
    ((SyncNewUsers (sampleSyncEnv sampleStored) sampleObjects twiceB true false true).heap
      (.Incoming 1)).Pass = "hash-b" ∧
    (SyncNewUsers (sampleSyncEnv sampleStored) sampleObjects twiceB true false true).emails =
      [{ user := .Incoming 1, pass := "pw-0", generatedPass := true, userExists := false,
         dryRun := false, sleep := true },
       { user := .Incoming 1, pass := "pw-0", generatedPass := true, userExists := true,
         dryRun := false, sleep := true }] := by
  refine ⟨by decide, by decide, by decide, by decide⟩

/-- C10, amended: when the emails of the incoming users are pairwise distinct and every
user of the loaded roster is stored under its email, a call with `sendEmails` true and
`dryRun` false that returns a result (so that persistence succeeded) invokes
`SendUserAddEmail` exactly once for every user of `Add`, exactly once for a user of `Mod`
whose email has a non-empty plaintext password in `ClearTextPasswords` and not at all for
the other users of `Mod`, and not at all for a user of `Skip`. A user of `Mod` whose
candidate supplied a password is not notified; for one whose candidate came without a
password the map holds the plaintext generated for that candidate. -/
theorem syncNewUsers_notifications (env : SyncEnv) (objects : Nat → User)
    (newUsers : List (String × Nat)) (merge : Bool)
    (stored : List (String × User)) (r : UserSyncResult)
    (hg : env.GetUsers = .ok stored)
    (hkeyed : ∀ kv ∈ stored, kv.2.Email = kv.1)
    (hdistinct : (incomingEmails objects (newUsers.map fun kv => kv.2)).Nodup)
    (hr : (SyncNewUsers env objects newUsers merge false true).result = some r) :
    (∀ p ∈ r.Add,
      ((SyncNewUsers env objects newUsers merge false true).emails.map
        fun c => c.user).count p = 1) ∧
    (∀ p ∈ r.Mod,
      ((SyncNewUsers env objects newUsers merge false true).emails.map
        fun c => c.user).count p =
        if (mapGet r.ClearTextPasswords
          ((SyncNewUsers env objects newUsers merge false true).heap p).Email).getD "" = ""
        then 0 else 1) ∧
    (∀ p ∈ r.Skip,
      ((SyncNewUsers env objects newUsers merge false true).emails.map
        fun c => c.user).count p = 0) ∧
    (∀ kv ∈ newUsers, ∀ p ∈ r.Mod,
      ((SyncNewUsers env objects newUsers merge false true).heap p).Email =
        (objects kv.2).Email →
      ((objects kv.2).Pass ≠ "" →
        ((SyncNewUsers env objects newUsers merge false true).emails.map
          fun c => c.user).count p = 0) ∧
      ((objects kv.2).Pass = "" →
        ∃ c, Generated env (objects kv.2) c ∧
          mapGet r.ClearTextPasswords (objects kv.2).Email = some c)) := by
  obtain ⟨s, hl, hrs, hheap, hrest⟩ :=
    syncNewUsers_result env objects newUsers merge false true stored r hg hr
  obtain ⟨_, _, hemails⟩ := hrest rfl
  have hinv := syncInv_loop env merge stored objects newUsers [] (startState stored objects)
    (syncInv_start env merge stored objects (keyed_lookup stored hkeyed))
    (by simpa using hdistinct) (by rw [hl])
  rw [hl] at hinv
  simp only [List.nil_append] at hinv
  have husers : (SyncNewUsers env objects newUsers merge false true).emails.map
      (fun c => c.user) =
      r.Add ++ r.Mod.filter fun p =>
        decide ((mapGet r.ClearTextPasswords (s.heap p).Email).getD "" ≠ "") := by
    rw [hemails rfl, List.map_append, notifyAdded_users, notifyModified_users, hrs]
  have hnodupE := hinv.nodup
  simp only [emailsOf, listed, List.map_append] at hnodupE
  obtain ⟨_, _, _, _, eSM, _⟩ := nodup_three _ _ _ hnodupE
  have hnodupP : (r.Skip ++ r.Add ++ r.Mod).Nodup := by
    rw [hrs]
    exact List.Nodup.of_map _ hinv.nodup
  obtain ⟨_, nA, nM, dSA, dSM, dAM⟩ := nodup_three _ _ _ hnodupP
  have hmod : ∀ p ∈ r.Mod,
      (r.Add ++ r.Mod.filter fun p =>
        decide ((mapGet r.ClearTextPasswords (s.heap p).Email).getD "" ≠ "")).count p =
      if (mapGet r.ClearTextPasswords (s.heap p).Email).getD "" = "" then 0 else 1 := by
    intro p hp
    have hpA : p ∉ r.Add := fun h => dAM p h hp
    rw [List.count_append, List.count_eq_zero_of_not_mem hpA, Nat.zero_add]
    by_cases hc : (mapGet r.ClearTextPasswords (s.heap p).Email).getD "" = ""
    · rw [if_pos hc]
      apply List.count_eq_zero_of_not_mem
      intro hmem
      have := (List.mem_filter.mp hmem).2
      simp [hc] at this
    · rw [if_neg hc]
      apply List.count_eq_one_of_mem (nM.filter _)
      exact List.mem_filter.mpr ⟨hp, by simp [hc]⟩
  rw [husers, hheap]
  refine ⟨?_, hmod, ?_, ?_⟩
  · intro p hp
    have hpM : p ∉ r.Mod := dAM p hp
    rw [List.count_append, List.count_eq_one_of_mem nA hp]
    rw [List.count_eq_zero_of_not_mem (fun h => hpM (List.mem_filter.mp h).1)]
  · intro p hp
    rw [List.count_append, List.count_eq_zero_of_not_mem (dSA p hp)]
    rw [List.count_eq_zero_of_not_mem (fun h => dSM p hp (List.mem_filter.mp h).1)]
  · intro kv hkv p hp hpe
    have hkv' : kv.2 ∈ newUsers.map fun kv => kv.2 := List.mem_map.mpr ⟨kv, hkv, rfl⟩
    refine ⟨?_, ?_⟩
    · intro hpass
      rw [hmod p hp, hpe]
      have hnone : mapGet r.ClearTextPasswords (objects kv.2).Email = none := by
        cases hc : mapGet r.ClearTextPasswords (objects kv.2).Email with
        | none => rfl
        | some c =>
          rw [hrs] at hc
          obtain ⟨id, hid, hide, hidp, _⟩ := hinv.clearOnly _ c hc
          have : id = kv.2 := List.inj_on_of_nodup_map hdistinct hid hkv' hide
          rw [this] at hidp
          exact absurd hidp hpass
      rw [hnone]
      simp
    · intro hpass
      rcases hinv.clearSet kv.2 hkv' hpass with h | h
      · exfalso
        have hpe0 : (initialHeap stored objects p).Email = (objects kv.2).Email := by
          rw [← hinv.emails, hpe]
        simp only [emailsOf] at h
        apply eSM _ h
        rw [← hpe0]
        rw [hrs] at hp
        exact List.mem_map.mpr ⟨p, hp, rfl⟩
      · rw [hrs]
        exact h

/-- C10, amended, at a concrete call: merging `a@x.com` and `b@x.com`, both without a
password, into the sample roster notifies the added `b@x.com` once. -/
theorem syncNewUsers_notifications_witness :
    ((SyncNewUsers (sampleSyncEnv sampleStored) sampleObjects sampleNewUsers true false
      true).emails.map fun c => c.user).count (.Incoming 1) = 1 :=
  (syncNewUsers_notifications (sampleSyncEnv sampleStored) sampleObjects sampleNewUsers true
    sampleStored sampleMergeResult rfl (by decide) (by decide) (by decide)).1 (.Incoming 1)
    (by decide)

/-! ## The new-user branch -/

/-- The password part of an iteration changes no role. -/
theorem resolvePassword_role (env : SyncEnv) (s : SyncState) (p : Ptr) :
    ∀ q, ((resolvePassword env s p).1.heap q).Role = (s.heap q).Role := by
  intro q
  unfold resolvePassword
  simp only
  split
  · split
    · rfl
    · by_cases hq : q = p
      · subst hq
        simp [Heap.store_same]
      · simp [Heap.store_other _ _ _ _ hq]
  · split
    · rfl
    · by_cases hq : q = p
      · subst hq
        simp [Heap.store_same]
      · simp [Heap.store_other _ _ _ _ hq]

/-- The role the new-user branch stores: `Other` for a user without a role, else the role
it has. -/
theorem addNewUser_role (s : SyncState) (p : Ptr) :
    ((addNewUser s p).heap p).Role =
      if (s.heap p).Role = UserRole.Unknown then UserRole.Other else (s.heap p).Role := by
  simp only [addNewUser]
  split
  · simp [Heap.store_same]
  · rfl

/-- The loop over a list made of two parts runs the first part and, unless that returned
with an error, the second. -/
theorem syncLoop_append (env : SyncEnv) (merge : Bool) (a b : List Ptr) :
    ∀ s, syncLoop env merge s (a ++ b) =
      match syncLoop env merge s a with
      | (s', some err) => (s', some err)
      | (s', none) => syncLoop env merge s' b := by
  induction a with
  | nil => intro s; rfl
  | cons p rest ih =>
    intro s
    simp only [List.cons_append, syncLoop]
    rcases syncNewUser env merge s p with ⟨s', _ | err⟩
    · exact ih s'
    · rfl

/-- One iteration removes nothing: the users of `Add` stay in it and the entries of the
roster stay as they are. -/
theorem syncNewUser_grows (env : SyncEnv) (merge : Bool) (s : SyncState) (p : Ptr) :
    (∀ x ∈ s.syncResult.Add, x ∈ (syncNewUser env merge s p).1.syncResult.Add) ∧
    (∀ k q, mapGet s.localUsers k = some q →
      mapGet (syncNewUser env merge s p).1.localUsers k = some q) := by
  obtain ⟨fl, fa, _, _, _, femail, _⟩ := resolvePassword_frame env s p
  rw [syncNewUser_eq]
  cases hq : mapGet s.localUsers (s.heap p).Email with
  | some q =>
    cases merge with
    | false =>
      simp only [UserSyncResult.AddResolveResult, Option.toList, List.append_nil]
      exact ⟨fun x hx => hx, fun k q' h => h⟩
    | true =>
      simp only
      rcases hr : resolvePassword env s p with ⟨s1, _ | err⟩
      · rw [hr] at fl fa
        simp only at fl fa ⊢
        obtain ⟨ml, ma, _⟩ := mergeUser_frame env s1 q p
        rw [ml, ma, fl, fa]
        exact ⟨fun x hx => hx, fun k q' h => h⟩
      · rw [hr] at fl fa
        simp only at fl fa ⊢
        rw [fl, fa]
        exact ⟨fun x hx => hx, fun k q' h => h⟩
  | none =>
    simp only
    rcases hr : resolvePassword env s p with ⟨s1, _ | err⟩
    · rw [hr] at fl fa femail
      simp only at fl fa femail ⊢
      obtain ⟨al, aa, _⟩ := addNewUser_frame s1 p
      rw [aa, fa]
      refine ⟨fun x hx => List.mem_append_left _ hx, ?_⟩
      intro k q' h
      rw [al, femail, fl]
      by_cases hk : k = (s.heap p).Email
      · rw [hk, hq] at h
        exact Option.noConfusion h
      · rw [if_neg hk]
        exact h
    · rw [hr] at fl fa
      simp only at fl fa ⊢
      rw [fl, fa]
      exact ⟨fun x hx => hx, fun k q' h => h⟩

/-- The loop removes nothing: the users of `Add` stay in it and the entries of the roster
stay as they are. -/
theorem syncLoop_grows (env : SyncEnv) (merge : Bool) (ps : List Ptr) :
    ∀ s, (∀ x ∈ s.syncResult.Add, x ∈ (syncLoop env merge s ps).1.syncResult.Add) ∧
      (∀ k q, mapGet s.localUsers k = some q →
        mapGet (syncLoop env merge s ps).1.localUsers k = some q) := by
  induction ps with
  | nil => intro s; exact ⟨fun x hx => hx, fun k q h => h⟩
  | cons p rest ih =>
    intro s
    obtain ⟨h1, h2⟩ := syncNewUser_grows env merge s p
    simp only [syncLoop]
    rcases hr : syncNewUser env merge s p with ⟨s', _ | err⟩
    · rw [hr] at h1 h2
      simp only at h1 h2 ⊢
      obtain ⟨g1, g2⟩ := ih s'
      exact ⟨fun x hx => g1 x (h1 x hx), fun k q h => g2 k q (h2 k q h)⟩
    · rw [hr] at h1 h2
      exact ⟨h1, h2⟩

/-- The iteration that visits a user whose email the working roster does not have, when it
goes through: the user is appended to `Add`, the other lists stay, the roster maps the
email to the user, and the role stored is `Other` for a user that came without a role and
the role it came with otherwise. -/
theorem syncNewUser_new (env : SyncEnv) (merge : Bool) (s : SyncState) (p : Ptr)
    (hnew : mapGet s.localUsers (s.heap p).Email = none)
    (hok : (syncNewUser env merge s p).2 = none) :
    (syncNewUser env merge s p).1.syncResult.Add = s.syncResult.Add ++ [p] ∧
    (syncNewUser env merge s p).1.syncResult.Skip = s.syncResult.Skip ∧
    (syncNewUser env merge s p).1.syncResult.Mod = s.syncResult.Mod ∧
    mapGet (syncNewUser env merge s p).1.localUsers (s.heap p).Email = some p ∧
    ((syncNewUser env merge s p).1.heap p).Email = (s.heap p).Email ∧
    ((syncNewUser env merge s p).1.heap p).Role =
      (if (s.heap p).Role = UserRole.Unknown then UserRole.Other else (s.heap p).Role) := by
  obtain ⟨_, fa, fm, fs, _, femail, _⟩ := resolvePassword_frame env s p
  have frole := resolvePassword_role env s p
  rw [syncNewUser_eq] at hok ⊢
  rw [hnew] at hok ⊢
  simp only at hok ⊢
  rcases hr : resolvePassword env s p with ⟨s1, _ | err⟩
  · rw [hr] at fa fm fs femail frole
    simp only at fa fm fs femail frole ⊢
    obtain ⟨al, aa, am, as, _, _, aemail⟩ := addNewUser_frame s1 p
    refine ⟨by rw [aa, fa], by rw [as, fs], by rw [am, fm], ?_, by rw [aemail, femail], ?_⟩
    · rw [al, femail]
      simp
    · rw [addNewUser_role, frole]
  · rw [hr] at hok
    simp at hok

/-- A dry run hands nothing to `SaveUsers`. -/
theorem saved_of_dryRun (env : SyncEnv) (objects : Nat → User)
    (newUsers : List (String × Nat)) (merge sendEmails : Bool) :
    (SyncNewUsers env objects newUsers merge true sendEmails).saved = none := by
  unfold SyncNewUsers
  cases env.GetUsers with
  | error err => rfl
  | ok stored =>
    simp only
    rcases syncLoop env merge (startState stored objects) (incomingPtrs newUsers) with
      ⟨s, _ | err⟩ <;> rfl

/-- The visit of a new user inside a call: in a call of `SyncNewUsers` that returns a result,
for either value of `merge`, an
incoming user (object `id`) whose email the working roster does not have when the loop
visits it (`s` is the state the loop has reached then) is classified as added: the visit
appends the user to `Add` and leaves `Skip` and `Mod` alone, enters the user in the
working roster under its email, and stores `Other` as its role when it came with
`Unknown` and the role it came with otherwise. The user is in `Add` of the returned
result, and the roster handed to `SaveUsers` has that user under its email. -/
theorem syncNewUsers_visit_adds (env : SyncEnv) (objects : Nat → User)
    (pre post : List (String × Nat)) (key : String) (id : Nat)
    (merge dryRun sendEmails : Bool) (stored : List (String × User)) (s : SyncState)
    (r : UserSyncResult)
    (hg : env.GetUsers = .ok stored)
    (hpre : syncLoop env merge (startState stored objects) (incomingPtrs pre) = (s, none))
    (hnew : mapGet s.localUsers (s.heap (.Incoming id)).Email = none)
    (hr : (SyncNewUsers env objects (pre ++ (key, id) :: post) merge dryRun sendEmails).result =
      some r) :
    ((syncNewUser env merge s (.Incoming id)).2 = none ∧
      (syncNewUser env merge s (.Incoming id)).1.syncResult.Add =
        s.syncResult.Add ++ [.Incoming id] ∧
      (syncNewUser env merge s (.Incoming id)).1.syncResult.Skip = s.syncResult.Skip ∧
      (syncNewUser env merge s (.Incoming id)).1.syncResult.Mod = s.syncResult.Mod ∧
      mapGet (syncNewUser env merge s (.Incoming id)).1.localUsers
        (s.heap (.Incoming id)).Email = some (.Incoming id) ∧
      ((syncNewUser env merge s (.Incoming id)).1.heap (.Incoming id)).Email =
        (s.heap (.Incoming id)).Email ∧
      ((syncNewUser env merge s (.Incoming id)).1.heap (.Incoming id)).Role =
        (if (s.heap (.Incoming id)).Role = UserRole.Unknown then UserRole.Other
          else (s.heap (.Incoming id)).Role)) ∧
    Ptr.Incoming id ∈ r.Add ∧
    (∀ roster,
      (SyncNewUsers env objects (pre ++ (key, id) :: post) merge dryRun sendEmails).saved =
        some roster →
      roster.lookup (s.heap (.Incoming id)).Email =
        some ((SyncNewUsers env objects (pre ++ (key, id) :: post) merge dryRun
          sendEmails).heap (.Incoming id))) := by
  obtain ⟨sf, hl, hrs, hheap, hsaved⟩ :=
    syncNewUsers_result env objects (pre ++ (key, id) :: post) merge dryRun sendEmails stored r
      hg hr
  have hsplit : incomingPtrs (pre ++ (key, id) :: post) =
      incomingPtrs pre ++ Ptr.Incoming id :: incomingPtrs post := by
    simp [incomingPtrs]
  rw [hsplit, syncLoop_append, hpre] at hl
  simp only [syncLoop] at hl
  have hok : (syncNewUser env merge s (.Incoming id)).2 = none := by
    rcases hv : syncNewUser env merge s (.Incoming id) with ⟨s', _ | err⟩
    · rfl
    · rw [hv] at hl
      simp at hl
  obtain ⟨vAdd, vSkip, vMod, vRoster, vEmail, vRole⟩ :=
    syncNewUser_new env merge s (.Incoming id) hnew hok
  have hrest : syncLoop env merge (syncNewUser env merge s (.Incoming id)).1
      (incomingPtrs post) = (sf, none) := by
    rcases hv : syncNewUser env merge s (.Incoming id) with ⟨s', _ | err⟩
    · rw [hv] at hl
      exact hl
    · rw [hv] at hok
      simp at hok
  obtain ⟨gAdd, gRoster⟩ := syncLoop_grows env merge (incomingPtrs post)
    (syncNewUser env merge s (.Incoming id)).1
  rw [hrest] at gAdd gRoster
  simp only at gAdd gRoster
  refine ⟨⟨hok, vAdd, vSkip, vMod, vRoster, vEmail, vRole⟩, ?_, ?_⟩
  · rw [hrs]
    apply gAdd
    rw [vAdd]
    exact List.mem_append_right _ (List.mem_singleton_self _)
  · intro roster hroster
    cases dryRun with
    | true =>
      rw [saved_of_dryRun] at hroster
      exact Option.noConfusion hroster
    | false =>
      obtain ⟨_, hsv, _⟩ := hsaved rfl
      rw [hsv] at hroster
      cases hroster
      have hfinal := gRoster _ _ vRoster
      simp only [mapGet] at hfinal
      simp only [rosterOf]
      rw [lookup_map_value, hfinal, hheap]
      rfl

/-- The visit of a new user at a concrete call: `b@x.com` comes without a role and is not in
the roster of the student `a@x.com`; it is added, and the role stored for it is `Other`. -/
theorem syncNewUsers_visit_adds_sample :
    Ptr.Incoming 1 ∈ sampleMergeResult.Add ∧
    ((syncNewUser (sampleSyncEnv sampleStored) true sampleVisitState (.Incoming 1)).1.heap
      (.Incoming 1)).Role =
      (if (sampleVisitState.heap (.Incoming 1)).Role = UserRole.Unknown then UserRole.Other
        else (sampleVisitState.heap (.Incoming 1)).Role) ∧
    (sampleVisitState.heap (.Incoming 1)).Role = UserRole.Unknown :=
  ⟨(syncNewUsers_visit_adds (sampleSyncEnv sampleStored) sampleObjects [("a@x.com", 0)] []
      "b@x.com" 1 true false false sampleStored sampleVisitState sampleMergeResult rfl rfl
      (by decide) (by decide)).2.1,
    (syncNewUsers_visit_adds (sampleSyncEnv sampleStored) sampleObjects [("a@x.com", 0)] []
      "b@x.com" 1 true false false sampleStored sampleVisitState sampleMergeResult rfl rfl
      (by decide) (by decide)).1.2.2.2.2.2.2,
    by decide⟩

/-! ## The scoring report -/

/-- The count the report loop ends with: the number of scores of the last question name, or
the start value when there is no question name. -/
theorem questionStats_count {F : Type} (ops : FloatOps F) (scores : List (String × List F))
    (questionNames : List String) :
    ∀ acc : Nat × List (ScoringReportQuestionStats F),
      (questionNames.foldl (questionStatsStep ops scores) acc).1 =
        ((questionNames.getLast?).map fun q => ((mapGet scores q).getD []).length).getD
          acc.1 := by
  induction questionNames with
  | nil => intro acc; rfl
  | cons a rest ih =>
    intro acc
    rw [List.foldl_cons, ih, List.getLast?_cons]
    cases rest.getLast? with
    | none => rfl
    | some q => rfl

/-- Giving the questions of a result their empty slices does not touch the scores of
`OVERALL_NAME` when no question has that name, and leaves no empty list of names. -/
theorem initQuestionNames_overall {F : Type} (st : FetchState F) (result : GradedAssignment F)
    (hnames : ∀ q ∈ result.Questions, q.Name ≠ OVERALL_NAME)
    (hlast : ∀ q, st.questionNames.getLast? = some q → q = OVERALL_NAME) :
    mapGet (initQuestionNames st result).scores OVERALL_NAME = mapGet st.scores OVERALL_NAME ∧
    (initQuestionNames st result).questionNames ≠ [] ∧
    (∀ q, (initQuestionNames st result).questionNames.getLast? = some q →
      q = OVERALL_NAME) := by
  have hfold : ∀ (questions : List (GradedQuestion F)) (st0 : FetchState F),
      (∀ q ∈ questions, q.Name ≠ OVERALL_NAME) →
      mapGet (questions.foldl
        (fun (st : FetchState F) question =>
          { st with
            questionNames := st.questionNames ++ [question.Name]
            scores := mapSet st.scores question.Name [] })
        st0).scores OVERALL_NAME = mapGet st0.scores OVERALL_NAME := by
    intro questions
    induction questions with
    | nil => intro st0 _; rfl
    | cons q rest ih =>
      intro st0 hq
      rw [List.foldl_cons, ih _ (fun x hx => hq x (List.mem_cons_of_mem _ hx))]
      simp only
      rw [mapGet_mapSet, if_neg (fun h => hq q (List.mem_cons_self _ _) h.symm)]
  unfold initQuestionNames
  by_cases hlen : st.questionNames.length = 0
  · simp only [hlen, if_true]
    refine ⟨hfold _ _ hnames, by simp, ?_⟩
    intro q hq
    rw [List.getLast?_concat] at hq
    cases hq
    rfl
  · simp only [hlen, if_false]
    refine ⟨trivial, ?_, hlast⟩
    intro h
    apply hlen
    rw [h]
    rfl

/-- Appending the scores of the questions of a result does not touch the scores of
`OVERALL_NAME` when no question has that name. -/
theorem addQuestionScores_overall {F : Type} (ops : FloatOps F)
    (questions : List (GradedQuestion F)) :
    ∀ acc : List (String × List F) × F × F,
      (∀ q ∈ questions, q.Name ≠ OVERALL_NAME) →
      mapGet (addQuestionScores ops questions acc).1 OVERALL_NAME =
        mapGet acc.1 OVERALL_NAME := by
  induction questions with
  | nil => intro acc _; rfl
  | cons q rest ih =>
    intro acc hq
    unfold addQuestionScores at ih ⊢
    rw [List.foldl_cons, ih _ (fun x hx => hq x (List.mem_cons_of_mem _ hx))]
    simp only
    rw [mapGet_mapSet, if_neg (fun h => hq q (List.mem_cons_self _ _) h.symm)]

/-- One iteration of the loop of `fetchScores` that goes through, on an entry whose result
(if it is counted) has no question named `OVERALL_NAME`: the scores of `OVERALL_NAME`
grow by one exactly when the entry is counted, the list of names is empty only as long
as nothing was counted, and its last name is `OVERALL_NAME`. -/
theorem fetchScoresStep_count {F : Type} (ops : FloatOps F) (env : ReportEnv F)
    (users : List (String × User)) (st st' : FetchState F) (email path : String) (c : Nat)
    (hstep : fetchScoresStep ops env users st email path = some (.ok st'))
    (hnames : isCounted users (email, path) = true →
      ∀ result, env.JSONFromFile path = .ok result →
        ∀ q ∈ result.Questions, q.Name ≠ OVERALL_NAME)
    (hov : ((mapGet st.scores OVERALL_NAME).getD []).length = c)
    (hempty : st.questionNames = [] → c = 0)
    (hlast : ∀ q, st.questionNames.getLast? = some q → q = OVERALL_NAME) :
    ((mapGet st'.scores OVERALL_NAME).getD []).length =
      c + (if isCounted users (email, path) then 1 else 0) ∧
    (st'.questionNames = [] → c + (if isCounted users (email, path) then 1 else 0) = 0) ∧
    (∀ q, st'.questionNames.getLast? = some q → q = OVERALL_NAME) := by
  unfold fetchScoresStep at hstep
  cases hu : mapGet users email with
  | none =>
    rw [hu] at hstep
    exact Option.noConfusion hstep
  | some user =>
    rw [hu] at hstep
    simp only at hstep
    by_cases hrole : user.Role = UserRole.Student
    · by_cases hpath : path = ""
      · have hc : isCounted users (email, path) = false := by
          simp [isCounted, hu, hpath]
        simp only [hrole, hpath, ne_eq, not_true_eq_false, if_false, if_true,
          Option.some.injEq, Except.ok.injEq] at hstep
        subst hstep
        simp only [hc, Bool.false_eq_true, if_false, Nat.add_zero]
        exact ⟨hov, hempty, hlast⟩
      · have hc : isCounted users (email, path) = true := by
          simp [isCounted, hu, hrole, hpath]
        simp only [hrole, hpath, ne_eq, not_true_eq_false, if_false] at hstep
        cases hj : env.JSONFromFile path with
        | error err =>
          rw [hj] at hstep
          simp at hstep
        | ok result =>
          rw [hj] at hstep
          simp only [Option.some.injEq, Except.ok.injEq] at hstep
          have hq := hnames hc result hj
          obtain ⟨i1, i2, i3⟩ := initQuestionNames_overall
            (if result.GradingStartTime > st.lastSubmissionTime then
              { st with lastSubmissionTime := result.GradingStartTime } else st)
            result hq (by split <;> exact hlast)
          have i1' : mapGet (initQuestionNames
              (if result.GradingStartTime > st.lastSubmissionTime then
                { st with lastSubmissionTime := result.GradingStartTime } else st)
              result).scores OVERALL_NAME = mapGet st.scores OVERALL_NAME := by
            rw [i1]
            split <;> rfl
          have a1 := addQuestionScores_overall ops result.Questions
            ((initQuestionNames
              (if result.GradingStartTime > st.lastSubmissionTime then
                { st with lastSubmissionTime := result.GradingStartTime } else st)
              result).scores, ops.zero, ops.zero) hq
          simp only at a1
          subst hstep
          simp only [hc, if_true]
          refine ⟨?_, ?_, i3⟩
          · rw [mapGet_mapSet, if_pos rfl, Option.getD_some, List.length_append, a1, i1', hov]
            rfl
          · intro h
            exact absurd h i2
    · have hc : isCounted users (email, path) = false := by
        simp [isCounted, hu, hrole]
      simp only [ne_eq, hrole, not_false_eq_true, if_true, Option.some.injEq,
        Except.ok.injEq] at hstep
      subst hstep
      simp only [hc, Bool.false_eq_true, if_false, Nat.add_zero]
      exact ⟨hov, hempty, hlast⟩

theorem countedSubmissions_cons (users : List (String × User)) (entry : String × String)
    (rest : List (String × String)) :
    countedSubmissions users (entry :: rest) =
      (if isCounted users entry then 1 else 0) + countedSubmissions users rest := by
  unfold countedSubmissions
  rw [List.filter_cons]
  split
  · rw [List.length_cons]
    omega
  · omega

/-- The loop of `fetchScores`, when it goes through on entries whose counted results have
no question named `OVERALL_NAME`: the scores of `OVERALL_NAME` grow by the number of
counted entries. -/
theorem fetchScoresLoop_count {F : Type} (ops : FloatOps F) (env : ReportEnv F)
    (users : List (String × User)) (paths : List (String × String)) :
    ∀ (st st' : FetchState F) (c : Nat),
      fetchScoresLoop ops env users st paths = some (.ok st') →
      (∀ entry ∈ paths, isCounted users entry = true →
        ∀ result, env.JSONFromFile entry.2 = .ok result →
          ∀ q ∈ result.Questions, q.Name ≠ OVERALL_NAME) →
      ((mapGet st.scores OVERALL_NAME).getD []).length = c →
      (st.questionNames = [] → c = 0) →
      (∀ q, st.questionNames.getLast? = some q → q = OVERALL_NAME) →
      ((mapGet st'.scores OVERALL_NAME).getD []).length = c + countedSubmissions users paths ∧
      (st'.questionNames = [] → c + countedSubmissions users paths = 0) ∧
      (∀ q, st'.questionNames.getLast? = some q → q = OVERALL_NAME) := by
  induction paths with
  | nil =>
    intro st st' c h _ hov hempty hlast
    simp only [fetchScoresLoop, Option.some.injEq, Except.ok.injEq] at h
    subst h
    simp only [countedSubmissions, List.filter_nil, List.length_nil, Nat.add_zero]
    exact ⟨hov, hempty, hlast⟩
  | cons entry rest ih =>
    intro st st' c h hnames hov hempty hlast
    obtain ⟨email, path⟩ := entry
    simp only [fetchScoresLoop] at h
    cases hs : fetchScoresStep ops env users st email path with
    | none =>
      rw [hs] at h
      exact Option.noConfusion h
    | some res =>
      cases res with
      | error err =>
        rw [hs] at h
        simp at h
      | ok st1 =>
        rw [hs] at h
        simp only at h
        obtain ⟨s1, s2, s3⟩ := fetchScoresStep_count ops env users st st1 email path c hs
          (hnames (email, path) (List.mem_cons_self _ _)) hov hempty hlast
        obtain ⟨g1, g2, g3⟩ := ih st1 st' _ h
          (fun e he => hnames e (List.mem_cons_of_mem _ he)) s1 s2 s3
        rw [countedSubmissions_cons, ← Nat.add_assoc]
        exact ⟨g1, g2, g3⟩

/-- The count of the report, when no counted result has a question named `OVERALL_NAME`:
for an assignment whose users, submission paths and results load, the
`NumberOfSubmissions` of the returned report is the number of users with role `Student`
that have a non-empty most-recent-submission path; it is 0 when there is none. -/
theorem numberOfSubmissions_eq_counted {F : Type} (ops : FloatOps F) (env : ReportEnv F)
    (users : List (String × User)) (paths : List (String × String))
    (report : AssignmentScoringReport F)
    (hu : env.GetUsers = .ok users)
    (hp : env.GetAllRecentSubmissionResults users = .ok paths)
    (hnames : ∀ entry ∈ paths, isCounted users entry = true →
      ∀ result, env.JSONFromFile entry.2 = .ok result →
        ∀ q ∈ result.Questions, q.Name ≠ OVERALL_NAME)
    (hr : GetAssignmentScoringReport ops env = some (.ok report)) :
    report.NumberOfSubmissions = countedSubmissions users paths := by
  unfold GetAssignmentScoringReport at hr
  cases hf : fetchScores ops env with
  | none =>
    rw [hf] at hr
    exact Option.noConfusion hr
  | some res =>
    cases res with
    | error err =>
      rw [hf] at hr
      simp at hr
    | ok fetched =>
      rw [hf] at hr
      simp only [Option.some.injEq, Except.ok.injEq] at hr
      subst hr
      simp only [questionStats_count]
      unfold fetchScores at hf
      simp only [hu, hp] at hf
      obtain ⟨g1, g2, g3⟩ := fetchScoresLoop_count ops env users paths _ fetched 0 hf hnames
        rfl (fun _ => rfl) (fun q hq => by simp at hq)
      rw [Nat.zero_add] at g1 g2
      cases hl : fetched.questionNames.getLast? with
      | none =>
        have := g2 (List.getLast?_eq_none_iff.mp hl)
        simp only [Option.map_none', Option.getD_none]
        exact this.symm
      | some q =>
        simp only [Option.map_some', Option.getD_some]
        rw [g3 q hl]
        exact g1

/-- The count of the report at a concrete course: with the questions `Q1` and `Q2` the one
student with a submission is counted, the grader is not. -/
theorem numberOfSubmissions_eq_counted_sample (report : AssignmentScoringReport Int)
    (hr : GetAssignmentScoringReport sampleFloatOps (sampleReportEnv sampleGraded) =
      some (.ok report)) :
    report.NumberOfSubmissions = 1 :=
  numberOfSubmissions_eq_counted sampleFloatOps (sampleReportEnv sampleGraded)
    [("a@x.com", sampleStudent), ("grader@x.edu", sampleGrader)]
    [("a@x.com", "results/a.json"), ("grader@x.edu", "results/g.json")] report rfl rfl
    (by
      intro entry _ _ result hres q hq
      simp only [sampleReportEnv, Except.ok.injEq] at hres
      subst hres
      revert q
      decide)
    hr

/-- C12 fails on the code: a student whose graded result has a question named `<Overall>`
(the name `OVERALL_NAME` is not reserved) is one counted submission, and the grader of
the course is none, but `GetAssignmentScoringReport` returns `NumberOfSubmissions` 2: the
count is read off the length of the scores kept under `OVERALL_NAME`, which took the
score of that question as well as the total. With the questions `Q1` and `Q2` the same
course is reported with `NumberOfSubmissions` 1. -/
theorem numberOfSubmissions_overall_question :
    submissionCount (GetAssignmentScoringReport sampleFloatOps (sampleReportEnv overallGraded)) =
      some 2 ∧
    countedSubmissions [("a@x.com", sampleStudent), ("grader@x.edu", sampleGrader)]
      [("a@x.com", "results/a.json"), ("grader@x.edu", "results/g.json")] = 1 ∧
    submissionCount (GetAssignmentScoringReport sampleFloatOps (sampleReportEnv sampleGraded)) =
      some 1 := by
  refine ⟨by decide, by decide, by decide⟩

/-! ## New users among distinct emails -/

/-- What one iteration can change, whatever its branch and outcome: no email; in the roster,
at most a new entry for the visited user under its email; in memory, only the visited
user and the roster's user of its email; in `Skip` and `Mod`, at most the roster's user
of its email is appended. -/
theorem syncNewUser_frame (env : SyncEnv) (merge : Bool) (s : SyncState) (p : Ptr) :
    (∀ x, ((syncNewUser env merge s p).1.heap x).Email = (s.heap x).Email) ∧
    (∀ k q, mapGet (syncNewUser env merge s p).1.localUsers k = some q →
      mapGet s.localUsers k = some q ∨ (k = (s.heap p).Email ∧ q = p)) ∧
    (∀ x, x ≠ p → mapGet s.localUsers (s.heap p).Email ≠ some x →
      (syncNewUser env merge s p).1.heap x = s.heap x) ∧
    (∀ x ∈ (syncNewUser env merge s p).1.syncResult.Skip,
      x ∈ s.syncResult.Skip ∨ mapGet s.localUsers (s.heap p).Email = some x) ∧
    (∀ x ∈ (syncNewUser env merge s p).1.syncResult.Mod,
      x ∈ s.syncResult.Mod ∨ mapGet s.localUsers (s.heap p).Email = some x) := by
  obtain ⟨fl, _, fm, fs, fheap, femail, _⟩ := resolvePassword_frame env s p
  rw [syncNewUser_eq]
  cases hq : mapGet s.localUsers (s.heap p).Email with
  | some q =>
    cases merge with
    | false =>
      simp only [UserSyncResult.AddResolveResult, Option.toList, List.append_nil]
      refine ⟨fun x => trivial, fun k q' h => Or.inl h, fun x _ _ => trivial, ?_,
        fun x hx => Or.inl hx⟩
      intro x hx
      rcases List.mem_append.mp hx with h | h
      · exact Or.inl h
      · rw [List.mem_singleton.mp h]
        exact Or.inr rfl
    | true =>
      simp only
      rcases hr : resolvePassword env s p with ⟨s1, _ | err⟩
      · rw [hr] at fl fm fs fheap femail
        simp only at fl fm fs fheap femail ⊢
        obtain ⟨ml, _, ms, mm, _, mheap, memail⟩ := mergeUser_frame env s1 q p
        refine ⟨?_, ?_, ?_, ?_, ?_⟩
        · intro x
          rw [memail, femail]
        · intro k q' h
          rw [ml, fl] at h
          exact Or.inl h
        · intro x hxp hxq
          rw [mheap x (fun h => hxq (by rw [h])), fheap x hxp]
        · intro x hx
          rw [ms, fs] at hx
          exact Or.inl hx
        · intro x hx
          rw [mm] at hx
          split at hx
          · rcases List.mem_append.mp hx with h | h
            · rw [fm] at h
              exact Or.inl h
            · rw [List.mem_singleton.mp h]
              exact Or.inr rfl
          · rw [fm] at hx
            exact Or.inl hx
      · rw [hr] at fl fm fs fheap femail
        simp only at fl fm fs fheap femail ⊢
        refine ⟨femail, ?_, fun x hxp _ => fheap x hxp, ?_, ?_⟩
        · intro k q' h
          rw [fl] at h
          exact Or.inl h
        · intro x hx
          rw [fs] at hx
          exact Or.inl hx
        · intro x hx
          rw [fm] at hx
          exact Or.inl hx
  | none =>
    simp only
    rcases hr : resolvePassword env s p with ⟨s1, _ | err⟩
    · rw [hr] at fl fm fs fheap femail
      simp only at fl fm fs fheap femail ⊢
      obtain ⟨al, _, am, as, _, aheap, aemail⟩ := addNewUser_frame s1 p
      refine ⟨?_, ?_, ?_, ?_, ?_⟩
      · intro x
        rw [aemail, femail]
      · intro k q' h
        rw [al, femail, fl] at h
        by_cases hk : k = (s.heap p).Email
        · rw [if_pos hk] at h
          cases h
          exact Or.inr ⟨hk, rfl⟩
        · rw [if_neg hk] at h
          exact Or.inl h
      · intro x hxp _
        rw [aheap x hxp, fheap x hxp]
      · intro x hx
        rw [as, fs] at hx
        exact Or.inl hx
      · intro x hx
        rw [am, fm] at hx
        exact Or.inl hx
    · rw [hr] at fl fm fs fheap femail
      simp only at fl fm fs fheap femail ⊢
      refine ⟨femail, ?_, fun x hxp _ => fheap x hxp, ?_, ?_⟩
      · intro k q' h
        rw [fl] at h
        exact Or.inl h
      · intro x hx
        rw [fs] at hx
        exact Or.inl hx
      · intro x hx
        rw [fm] at hx
        exact Or.inl hx

theorem newUserInv_start (stored : List (String × User)) (objects : Nat → User)
    (target : Nat) (hnew : stored.lookup (objects target).Email = none) :
    NewUserInv stored objects target false (startState stored objects) where
  emails := fun _ => rfl
  incoming := by
    intro k j h
    simp only [startState, mapGet] at h
    rw [lookup_map_key] at h
    cases hl : stored.lookup k with
    | none => rw [hl] at h; exact Option.noConfusion h
    | some u =>
      rw [hl] at h
      simp at h
  notSkipped := by simp [startState, NewUserSyncResult]
  notModified := by simp [startState, NewUserSyncResult]
  before := by
    intro _
    refine ⟨?_, rfl⟩
    simp only [startState, mapGet]
    rw [lookup_map_key, hnew]
    rfl
  after := fun h => Bool.noConfusion h

/-- The visit of another user, with another email, keeps the invariant of the target. -/
theorem newUserInv_other (env : SyncEnv) (merge : Bool) (stored : List (String × User))
    (objects : Nat → User) (target id : Nat) (visited : Bool) (s : SyncState)
    (hinv : NewUserInv stored objects target visited s)
    (hne : (objects id).Email ≠ (objects target).Email) :
    NewUserInv stored objects target visited (syncNewUser env merge s (.Incoming id)).1 := by
  obtain ⟨femail, froster, fheap, fskip, fmod⟩ := syncNewUser_frame env merge s (.Incoming id)
  obtain ⟨gadd, groster⟩ := syncNewUser_grows env merge s (.Incoming id)
  have hcur : (s.heap (.Incoming id)).Email = (objects id).Email := hinv.emails _
  rw [hcur] at froster fheap fskip fmod
  have hK : mapGet s.localUsers (objects id).Email ≠ some (.Incoming target) := by
    intro h
    exact hne (hinv.incoming _ _ h).symm
  have hptr : Ptr.Incoming target ≠ Ptr.Incoming id := by
    intro h
    cases h
    exact hne rfl
  have hsame : (syncNewUser env merge s (.Incoming id)).1.heap (.Incoming target) =
      s.heap (.Incoming target) := fheap _ hptr hK
  constructor
  · intro p
    rw [femail, hinv.emails]
  · intro k j h
    rcases froster k _ h with h' | ⟨hk, hq⟩
    · exact hinv.incoming k j h'
    · cases hq
      exact hk.symm
  · intro h
    rcases fskip _ h with h' | h'
    · exact hinv.notSkipped h'
    · exact hK h'
  · intro h
    rcases fmod _ h with h' | h'
    · exact hinv.notModified h'
    · exact hK h'
  · intro hv
    obtain ⟨b1, b2⟩ := hinv.before hv
    refine ⟨?_, by rw [hsame, b2]⟩
    cases hl : mapGet (syncNewUser env merge s (.Incoming id)).1.localUsers
        (objects target).Email with
    | none => rfl
    | some q =>
      rcases froster _ q hl with h' | ⟨hk, _⟩
      · rw [b1] at h'
        exact Option.noConfusion h'
      · exact absurd hk.symm hne
  · intro hv
    obtain ⟨a1, a2, a3⟩ := hinv.after hv
    exact ⟨gadd _ a1, groster _ _ a2, by rw [hsame, a3]⟩

/-- The visit of the target, when it goes through, takes the invariant from before to
after. -/
theorem newUserInv_visit (env : SyncEnv) (merge : Bool) (stored : List (String × User))
    (objects : Nat → User) (target : Nat) (s : SyncState)
    (hinv : NewUserInv stored objects target false s)
    (hok : (syncNewUser env merge s (.Incoming target)).2 = none) :
    NewUserInv stored objects target true (syncNewUser env merge s (.Incoming target)).1 := by
  obtain ⟨b1, b2⟩ := hinv.before rfl
  obtain ⟨femail, froster, _, _, _⟩ := syncNewUser_frame env merge s (.Incoming target)
  have hcur : (s.heap (.Incoming target)).Email = (objects target).Email := by rw [b2]
  obtain ⟨vAdd, vSkip, vMod, vRoster, _, vRole⟩ :=
    syncNewUser_new env merge s (.Incoming target) (by rw [hcur]; exact b1) hok
  rw [hcur] at froster vRoster
  rw [b2] at vRole
  constructor
  · intro p
    rw [femail, hinv.emails]
  · intro k j h
    rcases froster k _ h with h' | ⟨hk, hq⟩
    · exact hinv.incoming k j h'
    · cases hq
      exact hk.symm
  · rw [vSkip]
    exact hinv.notSkipped
  · rw [vMod]
    exact hinv.notModified
  · intro h
    exact Bool.noConfusion h
  · intro _
    refine ⟨?_, vRoster, vRole⟩
    rw [vAdd]
    exact List.mem_append_right _ (List.mem_singleton_self _)

/-- The loop over users none of which has the email of the target keeps the invariant of
the target. -/
theorem newUserInv_loop (env : SyncEnv) (merge : Bool) (stored : List (String × User))
    (objects : Nat → User) (target : Nat) (visited : Bool) (todo : List (String × Nat)) :
    ∀ s, NewUserInv stored objects target visited s →
      (∀ kv ∈ todo, (objects kv.2).Email ≠ (objects target).Email) →
      NewUserInv stored objects target visited
        (syncLoop env merge s (incomingPtrs todo)).1 := by
  induction todo with
  | nil => intro s hinv _; exact hinv
  | cons kv rest ih =>
    intro s hinv hne
    have hstep := newUserInv_other env merge stored objects target kv.2 visited s hinv
      (hne kv (List.mem_cons_self _ _))
    simp only [incomingPtrs, List.map_cons, syncLoop]
    rcases hr : syncNewUser env merge s (.Incoming kv.2) with ⟨s', _ | err⟩
    · rw [hr] at hstep
      exact ih s' hstep (fun x hx => hne x (List.mem_cons_of_mem _ hx))
    · rw [hr] at hstep
      exact hstep

/-- C11 fails as stated: in `twiceB` the second entry (object 2) has the email `b@x.com`,
which the roster does not have, yet it is not classified as added, for either value of
`merge`: the first entry with that email was added before it, so object 2 is merged into
that user (`merge` true) or skipped with it (`merge` false), and the roster maps the
email to object 1. -/
theorem syncNewUsers_second_entry_not_added :
    sampleStored.lookup (sampleObjects 2).Email = none ∧
    (SyncNewUsers (sampleSyncEnv sampleStored) sampleObjects twiceB true false false).result =
      some twiceBResult ∧
    Ptr.Incoming 2 ∉ twiceBResult.Add ∧
    (SyncNewUsers (sampleSyncEnv sampleStored) sampleObjects twiceB false false false).result =
      some twiceBSkipResult ∧
    Ptr.Incoming 2 ∉ twiceBSkipResult.Add ∧
    mapGet (syncLoop (sampleSyncEnv sampleStored) true (startState sampleStored sampleObjects)
      (incomingPtrs twiceB)).1.localUsers "b@x.com" = some (.Incoming 1) := by
  refine ⟨by decide, by decide, by decide, by decide, by decide, by decide⟩

/-- C11, amended: when the emails of the incoming users are pairwise distinct, then for
either value of `merge`, in a call of `SyncNewUsers` that returns a result, every incoming
user (object `id`) whose email is not in the loaded roster is classified as added: it is
in `Add` and in neither `Skip` nor `Mod`, the working roster maps its email to it when
the loop ends, and so does the roster handed to `SaveUsers`; its email is the one it came
with, and its role when the call returns is `Other` when it came with `Unknown` and the
role it came with otherwise. -/
theorem syncNewUsers_adds_new_user (env : SyncEnv) (objects : Nat → User)
    (newUsers : List (String × Nat)) (key : String) (id : Nat)
    (merge dryRun sendEmails : Bool) (stored : List (String × User)) (r : UserSyncResult)
    (hg : env.GetUsers = .ok stored)
    (hdistinct : (incomingEmails objects (newUsers.map fun kv => kv.2)).Nodup)
    (hmem : (key, id) ∈ newUsers)
    (hnew : stored.lookup (objects id).Email = none)
    (hr : (SyncNewUsers env objects newUsers merge dryRun sendEmails).result = some r) :
    Ptr.Incoming id ∈ r.Add ∧ Ptr.Incoming id ∉ r.Skip ∧ Ptr.Incoming id ∉ r.Mod ∧
    mapGet (syncLoop env merge (startState stored objects)
      (incomingPtrs newUsers)).1.localUsers (objects id).Email = some (.Incoming id) ∧
    ((SyncNewUsers env objects newUsers merge dryRun sendEmails).heap (.Incoming id)).Email =
      (objects id).Email ∧
    ((SyncNewUsers env objects newUsers merge dryRun sendEmails).heap (.Incoming id)).Role =
      (if (objects id).Role = UserRole.Unknown then UserRole.Other else (objects id).Role) ∧
    (∀ roster,
      (SyncNewUsers env objects newUsers merge dryRun sendEmails).saved = some roster →
      roster.lookup (objects id).Email =
        some ((SyncNewUsers env objects newUsers merge dryRun sendEmails).heap
          (.Incoming id))) := by
  obtain ⟨sf, hl, hrs, hheap, hsaved⟩ :=
    syncNewUsers_result env objects newUsers merge dryRun sendEmails stored r hg hr
  obtain ⟨pre, post, hsplit⟩ := List.append_of_mem hmem
  have hnd : (objects id).Email ∉
      incomingEmails objects (pre.map fun kv => kv.2) ++
        incomingEmails objects (post.map fun kv => kv.2) := by
    rw [hsplit] at hdistinct
    simp only [incomingEmails, List.map_append, List.map_cons] at hdistinct
    have := (List.nodup_cons.mp (List.nodup_middle.mp hdistinct)).1
    simpa [incomingEmails] using this
  have hpreNe : ∀ kv ∈ pre, (objects kv.2).Email ≠ (objects id).Email := by
    intro kv hkv h
    apply hnd
    apply List.mem_append_left
    simp only [incomingEmails, List.map_map, List.mem_map]
    exact ⟨kv, hkv, h⟩
  have hpostNe : ∀ kv ∈ post, (objects kv.2).Email ≠ (objects id).Email := by
    intro kv hkv h
    apply hnd
    apply List.mem_append_right
    simp only [incomingEmails, List.map_map, List.mem_map]
    exact ⟨kv, hkv, h⟩
  have hptrs : incomingPtrs newUsers =
      incomingPtrs pre ++ Ptr.Incoming id :: incomingPtrs post := by
    rw [hsplit]
    simp [incomingPtrs]
  have hinv1 := newUserInv_loop env merge stored objects id false pre
    (startState stored objects) (newUserInv_start stored objects id hnew) hpreNe
  rw [hptrs, syncLoop_append] at hl
  rcases hp : syncLoop env merge (startState stored objects) (incomingPtrs pre) with
    ⟨s1, _ | err⟩
  · rw [hp] at hl hinv1
    simp only [syncLoop] at hl hinv1
    rcases hv : syncNewUser env merge s1 (.Incoming id) with ⟨s2, _ | err⟩
    · rw [hv] at hl
      simp only at hl
      have hinv2 := newUserInv_visit env merge stored objects id s1 hinv1 (by rw [hv])
      rw [hv] at hinv2
      have hinv3 := newUserInv_loop env merge stored objects id true post s2 hinv2 hpostNe
      rw [hl] at hinv3
      simp only at hinv3
      obtain ⟨a1, a2, a3⟩ := hinv3.after rfl
      have hfinal : (syncLoop env merge (startState stored objects)
          (incomingPtrs newUsers)).1 = sf := by
        rw [hptrs, syncLoop_append, hp]
        simp only [syncLoop, hv, hl]
      rw [hfinal, hheap, hrs]
      refine ⟨a1, hinv3.notSkipped, hinv3.notModified, a2, ?_, ?_, ?_⟩
      · rw [hinv3.emails]
        rfl
      · rw [a3]
        rfl
      · intro roster hroster
        cases dryRun with
        | true =>
          rw [saved_of_dryRun] at hroster
          exact Option.noConfusion hroster
        | false =>
          obtain ⟨_, hsv, _⟩ := hsaved rfl
          rw [hsv] at hroster
          cases hroster
          simp only [mapGet] at a2
          simp only [rosterOf]
          rw [lookup_map_value, a2]
          rfl
    · rw [hv] at hl
      simp at hl
  · rw [hp] at hl
    simp at hl

/-- C11, amended, at a concrete call: `b@x.com` comes without a role and is not in the
roster of the student `a@x.com`; merged in together with `a@x.com` it is added and its
role is `Other` when the call returns. -/
theorem syncNewUsers_adds_new_user_witness :
    Ptr.Incoming 1 ∈ sampleMergeResult.Add ∧
    ((SyncNewUsers (sampleSyncEnv sampleStored) sampleObjects sampleNewUsers true false
      false).heap (.Incoming 1)).Role =
      (if (sampleObjects 1).Role = UserRole.Unknown then UserRole.Other
        else (sampleObjects 1).Role) ∧
    (sampleObjects 1).Role = UserRole.Unknown :=
  ⟨(syncNewUsers_adds_new_user (sampleSyncEnv sampleStored) sampleObjects sampleNewUsers
      "b@x.com" 1 true false false sampleStored sampleMergeResult rfl (by decide) (by decide)
      (by decide) (by decide)).1,
    (syncNewUsers_adds_new_user (sampleSyncEnv sampleStored) sampleObjects sampleNewUsers
      "b@x.com" 1 true false false sampleStored sampleMergeResult rfl (by decide) (by decide)
      (by decide) (by decide)).2.2.2.2.2.1,
    by decide⟩

end Autograder
